import Mathlib

/-! # PROG05: S-record decoder and bootloader communication engine

A shallow embedding of `src/main.go` (a host-side programmer for the 68HC705C8).

Conventions of the embedding.
* A Go `byte` is a natural number below 256, a `uint16` one below 65536; every
  operation that can wrap in Go carries its `% 256` or `% 65536` explicitly.
* A Go byte slice of fixed size (`RAM`, `rxbuffer`, `mcudump`) is a `List Nat`.
* An index that Go would reject with a run-time panic makes the embedded
  function return `none`.
-/

namespace PROG05

/-! ## Utility functions -/

/-- Go `a - b` on two `byte` operands (wraps modulo 256). -/
def subByte (a b : Nat) : Nat := (a + 256 - b) % 256

/-- Go `a - b` on two `uint16` operands (wraps modulo 65536). -/
def subU16 (a b : Nat) : Nat := (a + 65536 - b) % 65536

/-- The test `d > 0x2F && d < 0x3A` of `asciihex2bin`: ASCII `'0'..'9'`. -/
def isDecDigit (d : Nat) : Bool := decide (d > 0x2F) && decide (d < 0x3A)

/-- The test `d > 0x40 && d < 0x47` of `asciihex2bin`: ASCII `'A'..'F'`. -/
def isHexLetter (d : Nat) : Bool := decide (d > 0x40) && decide (d < 0x47)

/-- Embedding of `asciihex2bin` (main.go 64-91): two ASCII hex digits to one byte. -/
def asciihex2bin (digit1 digit2 : Nat) : Nat :=
  let returnvalue : Nat := 0
  let returnvalue :=
    if isDecDigit digit1 || isHexLetter digit1 then
      let returnvalue := if isDecDigit digit1 then subByte digit1 0x30 else returnvalue
      let returnvalue := if isHexLetter digit1 then subByte digit1 0x37 else returnvalue
      (returnvalue <<< 4) % 256
    else returnvalue
  let returnvalue :=
    if isDecDigit digit2 || isHexLetter digit2 then
      let returnvalue := if isDecDigit digit2 then returnvalue ||| subByte digit2 0x30 else returnvalue
      let returnvalue := if isHexLetter digit2 then returnvalue ||| subByte digit2 0x37 else returnvalue
      returnvalue
    else returnvalue
  returnvalue

/-! ## The S-record loader -/

/-- The globals that `LoadSrec` reads and writes: the RAM image (`RAM`, 176
bytes for MCU addresses 0x0050..0x00FF), `RAM_PROGRAM_START`, and the counter
behind the pointer `objectlength` (`RAM_SIZE_LOADED` at every call site). -/
structure LoadState where
  RAM : List Nat
  RAM_PROGRAM_START : Nat
  objectlength : Nat
deriving DecidableEq, Repr

/-- Constant `RAM_0050` (main.go 32). -/
def RAM_0050 : Nat := 1

/-- What the body of the scan loop does with one line. -/
inductive LineResult where
  | next (s : LoadState)
  | ret (code : Int) (s : LoadState)
  | panic
deriving DecidableEq, Repr

/-- The payload loop of `LoadSrec` (main.go 139-144),
`for n := 0; n < int(len); n++`, with `k` the iterations still to run. -/
def storeLoop (line : List Nat) (address : Nat) : Nat → Nat → Nat → LoadState → Option LoadState
  | 0, _, _, s => some s
  | k + 1, n, offset, s =>
    match (line)[offset]?, (line)[offset + 1]? with
    | some c1, some c2 =>
      let idx := (subU16 address 0x50 + n % 65536) % 65536
      if idx < s.RAM.length then
        storeLoop line address k (n + 1) (offset + 2)
          { s with RAM := s.RAM.set idx (asciihex2bin c1 c2)
                   objectlength := (s.objectlength + 1) % 65536 }
      else none
    | _, _ => none

/-- The always-false range test of main.go 130, `address < 0x0050 && address > 0x00BF`. -/
def outOfRange (address : Nat) : Bool := decide (address < 0x0050) && decide (address > 0x00BF)

/-- The fields of an S1 line (main.go 120-125): the payload length `len` after
`len -= 3`, and the 16-bit address. -/
def recordLen (c2 c3 : Nat) : Nat := subByte (asciihex2bin c2 c3) 3

/-- The 16-bit address of an S1 line (main.go 123-125). -/
def recordAddress (c4 c5 c6 c7 : Nat) : Nat :=
  let address := asciihex2bin c4 c5 % 65536
  let address := (address <<< 8) % 65536
  address ||| (asciihex2bin c6 c7 % 65536)

/-- The body of the scan loop of `LoadSrec` (main.go 115-146) on one line. -/
def loadLine (targetarea : Nat) (line : List Nat) (s : LoadState) : LineResult :=
  match (line)[0]? with
  | none => .panic
  | some c0 =>
    if c0 = 0x53 then
      match (line)[1]? with
      | none => .panic
      | some c1 =>
        if c1 = 0x31 then
          match (line)[2]?, (line)[3]?, (line)[4]?, (line)[5]?, (line)[6]?, (line)[7]? with
          | some c2, some c3, some c4, some c5, some c6, some c7 =>
            let len := recordLen c2 c3
            let address := recordAddress c4 c5 c6 c7
            if targetarea = RAM_0050 then
              if outOfRange address then .ret (-1) s
              else
                let s := if s.RAM_PROGRAM_START = 0 then { s with RAM_PROGRAM_START := address } else s
                match storeLoop line address len 0 8 s with
                | some s1 => .next s1
                | none => .panic
            else .next s
          | _, _, _, _, _, _ => .panic
        else .next s
    else .next s

/-- The scan loop of `LoadSrec` (main.go 114-149) over the lines of the file. -/
def scanLoop (targetarea : Nat) : List (List Nat) → LoadState → Option (Int × LoadState)
  | [], s => some (0, s)
  | line :: rest, s =>
    match loadLine targetarea line s with
    | .next s1 => scanLoop targetarea rest s1
    | .ret code s1 => some (code, s1)
    | .panic => none

/-- Embedding of `LoadSrec` (main.go 102-150). `file` is `none` when `os.Open`
fails and otherwise the lines the scanner yields, each a list of bytes. The
result is `none` on a run-time panic, else the return value and the globals. -/
def LoadSrec (file : Option (List (List Nat))) (targetarea : Nat) (s : LoadState) :
    Option (Int × LoadState) :=
  let s := { s with objectlength := 0 }
  match file with
  | none => some (-1, s)
  | some lines => scanLoop targetarea lines s

/-- The bytes of an ASCII text. -/
def ascii (t : String) : List Nat := t.toList.map Char.toNat

/-- The RAM image as allocated by `make([]byte, 176)`. -/
def RAM0 : List Nat := List.replicate 176 0

/-- The record-length field `L` of an S1 line: characters 2 and 3, read as hex. -/
def lengthField (line : List Nat) : Nat := asciihex2bin (line.getD 2 0) (line.getD 3 0)

/-- The address `A` of an S1 line: characters 4 to 7, read as big-endian hex. -/
def addressField (line : List Nat) : Nat :=
  256 * asciihex2bin (line.getD 4 0) (line.getD 5 0) + asciihex2bin (line.getD 6 0) (line.getD 7 0)

/-- A line is significant when it starts with the two characters `'S'`, `'1'`. -/
def isS1 (line : List Nat) : Prop := (line)[0]? = some 0x53 ∧ (line)[1]? = some 0x31

instance (line : List Nat) : Decidable (isS1 line) := by
  unfold isS1
  infer_instance

/-- The nibble value the specification assigns to one character: `'0'..'9'` are
0..9, uppercase `'A'..'F'` are 10..15, every other byte is 0. -/
def nib (d : Nat) : Nat :=
  if 0x30 ≤ d ∧ d ≤ 0x39 then d - 0x30
  else if 0x41 ≤ d ∧ d ≤ 0x46 then d - 0x41 + 10
  else 0

/-! ## Record encoding (the writer side of the round trip) -/

/-- The uppercase hexadecimal digit of a value below 16. -/
def hexDigit (v : Nat) : Nat := if v < 10 then 0x30 + v else 0x37 + v

/-- Two uppercase hex digits per byte, high nibble first. -/
def hexBytes : List Nat → List Nat
  | [] => []
  | b :: bs => hexDigit (b / 16) :: hexDigit (b % 16) :: hexBytes bs

/-- The S-record checksum: one's complement of the low byte of the sum. -/
def checksum (body : List Nat) : Nat := 255 - body.sum % 256

/-- One S1 record: `S1`, the length field (payload length + 3), the 16-bit
address big-endian, the payload, the checksum, all in uppercase hex. -/
def encodeRecord (address : Nat) (payload : List Nat) : List Nat :=
  0x53 :: 0x31 ::
    hexBytes ((payload.length + 3) :: (address / 256) :: (address % 256) :: payload
      ++ [checksum ((payload.length + 3) :: (address / 256) :: (address % 256) :: payload)])

/-- A byte sequence given as consecutive chunks, one S1 record per chunk, at
consecutive addresses starting at `base`. -/
def encodeRecords : Nat → List (List Nat) → List (List Nat)
  | _, [] => []
  | base, chunk :: chunks => encodeRecord base chunk :: encodeRecords (base + chunk.length) chunks

/-- An S1 record for address 0x0050 with the one payload byte 0xAA. -/
def oneByteRecord : List Nat := ascii "S1040050AA01"

/-! ## The serial link

The program talks to the target through `port.Write`, and the goroutine
`SerialRx` stores whatever `port.Read` delivers into `rxbuffer`. The embedding
is sequential: the main task logs what it does in `trace`, and the bytes that
`SerialRx` stores while the main task is inside a `time.Sleep` are given by the
transport `Env` as a function of that history. -/

/-- What the main task does, in program order. -/
inductive Event where
  /-- Entry of `ReadByteFromMCU` with this address. -/
  | read (address : Nat)
  /-- The receive buffer has just been cleared. -/
  | clear
  /-- One `port.Write` of one byte; `ok` is `err == nil`. -/
  | write (b : Nat) (ok : Bool)
  /-- One `time.Sleep` of this many microseconds. -/
  | sleep (micros : Nat)
deriving DecidableEq, Repr

/-- A transport behaviour: whether a `port.Write` of a byte succeeds, and which
bytes `SerialRx` receives during the next sleep, both as functions of the
history so far. -/
structure Env where
  writeOk : List Event → Nat → Bool
  arrive : List Event → List Nat

/-- The globals of main.go that the communication engine uses, and the trace. -/
structure World where
  RAM : List Nat
  RAM_SIZE_LOADED : Nat
  RAM_PROGRAM_START : Nat
  length : Nat
  selector : Nat
  rxbuffer : List Nat
  rxbuffercount : Nat
  addr_hi : Nat
  addr_lo : Nat
  mcudump : List Nat
  trace : List Event
deriving DecidableEq, Repr

/-- One iteration of the copy loop of `SerialRx` (main.go 867-871) for the
received byte `b`. `rxbuffercount` stays within 0..1023, so the index is
always inside the 1024-byte buffer. -/
def rxStore (b : Nat) (w : World) : World :=
  let rxbuffer := w.rxbuffer.set w.rxbuffercount b
  let rxbuffercount := w.rxbuffercount + 1
  let rxbuffercount := if rxbuffercount > 1023 then 1023 else rxbuffercount
  { w with rxbuffer := rxbuffer, rxbuffercount := rxbuffercount }

/-- The drain loop of `SerialRx` (main.go 862-873) over the bytes that its
`port.Read` calls deliver, in order. -/
def SerialRx (bytes : List Nat) (w : World) : World :=
  bytes.foldl (fun w b => rxStore b w) w

/-- A `time.Sleep` of the main task: `SerialRx` stores what the transport
delivers meanwhile. -/
def sleep (env : Env) (micros : Nat) (w : World) : World :=
  let w := SerialRx (env.arrive w.trace) w
  { w with trace := w.trace ++ [Event.sleep micros] }

/-- One `port.Write(p[0:])` of the byte `b`; the Boolean is `err == nil`. -/
def portWrite (env : Env) (b : Nat) (w : World) : Bool × World :=
  let ok := env.writeOk w.trace b
  (ok, { w with trace := w.trace ++ [Event.write b ok] })

/-- The loop `for i := 0; i < n; i++ { buffer[i] = v }`. -/
def fillLoop (n v : Nat) (buffer : List Nat) : List Nat :=
  (List.range n).foldl (fun buf i => buf.set i v) buffer

/-- Clearing the receive buffer (main.go 186-189). -/
def clearRx (w : World) : World :=
  { w with rxbuffer := fillLoop 1024 0 w.rxbuffer
           rxbuffercount := 0
           trace := w.trace ++ [Event.clear] }

/-- The polling loop of `ReadByteFromMCU` (main.go 207-216); the result is the
final `readtimeout`. The loop is only entered with `readtimeout = 500`. -/
def pollLoop (env : Env) : Nat → World → Nat × World
  | 0, w => (0, w)
  | readtimeout + 1, w =>
    let w := sleep env 10 w
    if w.rxbuffercount > 0 then (readtimeout + 1, w)
    else if readtimeout = 0 then (0, w)
    else pollLoop env readtimeout w

/-- Entry of `ReadByteFromMCU` (main.go 181-182): the two address bytes. -/
def latchAddress (address : Nat) (w : World) : World :=
  { w with trace := w.trace ++ [Event.read address],
           addr_hi := ((address >>> 8) &&& 0xFF) % 256,
           addr_lo := (address &&& 0xFF) % 256 }

/-- Embedding of `ReadByteFromMCU` (main.go 178-233). `data` is the value
behind the pointer at entry; the result is the return value, the value behind
the pointer at exit, and the globals. -/
def ReadByteFromMCU (env : Env) (address : Nat) (data : Nat) (w : World) : Int × Nat × World :=
  let w := clearRx (latchAddress address w)
  let r := portWrite env w.addr_hi w
  if r.1 = false then (-1, data, r.2)
  else
    let w := sleep env 1000 r.2
    let r := portWrite env w.addr_lo w
    if r.1 = false then (-1, data, r.2)
    else
      let p := pollLoop env 500 r.2
      if p.1 = 0 then (-1, data, p.2)
      else if p.2.rxbuffercount > 0 then (0, p.2.rxbuffer.getD 0 0, p.2)
      else (-1, data, p.2)

/-- The streaming loop of the applet upload (main.go 683-694), with `k` the
iterations still to run; `none` when `RAM[selector]` is out of range. -/
def uploadLoop (env : Env) : Nat → World → Option World
  | 0, w => some w
  | k + 1, w =>
    match w.RAM[w.selector]? with
    | none => none
    | some b =>
      let w := sleep env 5000 w
      let r := portWrite env b w
      uploadLoop env k { r.2 with selector := r.2.selector + 1 }

/-- The applet upload (main.go 671-698, repeated verbatim at 356-382, 428-454,
548-574, 732-766 and 796-846): `anykey` is the byte read from the operator. -/
def upload (env : Env) (anykey : Nat) (w : World) : Option World :=
  if anykey > 0 then
    let length := w.RAM_SIZE_LOADED % 256
    let length := (length + 1) % 256
    let w := { w with length := length, selector := subU16 w.RAM_PROGRAM_START 0x50 }
    let r := portWrite env w.length w
    if r.1 = true then uploadLoop env (subByte r.2.length 1) r.2
    else some r.2
  else some w

/-- One iteration of the sweep (main.go 402): a read at `mcuaddress` whose
result pointer is `&mcudump[mcuaddress]`. -/
def sweepStep (env : Env) (mcuaddress : Nat) (w : World) : World :=
  let r := ReadByteFromMCU env mcuaddress (w.mcudump.getD mcuaddress 0) w
  { r.2.2 with mcudump := r.2.2.mcudump.set mcuaddress r.2.1 }

/-- The sweep loop of DUMPMCU (main.go 400-408), a `uint16` counter. -/
def sweepLoop (env : Env) (mcuaddress : Nat) (w : World) : World :=
  let w := sweepStep env mcuaddress w
  let mcuaddress1 := (mcuaddress + 1) % 65536
  if mcuaddress1 > 8191 then w else sweepLoop env mcuaddress1 w
termination_by (8191 + 65536 - mcuaddress % 65536) % 65536
decreasing_by omega

/-- The three diagnostic reads before the sweep (main.go 389-394); their
results go to local variables. -/
def diagReads (env : Env) (w : World) : World :=
  let w := (ReadByteFromMCU env 0x1FDF 0 w).2.2
  let w := (ReadByteFromMCU env 0x1FF0 0 w).2.2
  (ReadByteFromMCU env 0x1FF1 0 w).2.2

/-- The pre-fill of the snapshot (main.go 385-387). -/
def prefill (w : World) : World := { w with mcudump := fillLoop 8192 0xFF w.mcudump }

/-- The dump of DUMPMCU (main.go 385-408): pre-fill, diagnostic reads, sweep. -/
def dumpSweep (env : Env) (w : World) : World :=
  let w := prefill w
  let w := diagReads env w
  sweepLoop env 0 w

/-- The globals when the sweep loop is entered: `mcudump` pre-filled with 0xFF
and the three diagnostic reads done. -/
def dumpStart (env : Env) (w : World) : World :=
  diagReads env (prefill w)

/-- The globals after reads at the addresses `0, 1, ..., n-1`: the state in
which the read at address `n` is issued when the sweep starts in `w`. -/
def sweepPrefix (env : Env) (w : World) (n : Nat) : World :=
  (List.range n).foldl (fun w a => sweepStep env a w) w

/-- The addresses of the reads issued, in order. -/
def readsOf (trace : List Event) : List Nat :=
  trace.filterMap (fun e => match e with
    | Event.read a => some a
    | _ => none)

/-- The bytes handed to `port.Write`, in order, each with its success flag. -/
def writesOf (trace : List Event) : List (Nat × Bool) :=
  trace.filterMap (fun e => match e with
    | Event.write b ok => some (b, ok)
    | _ => none)

/-- The bytes received by `SerialRx` up to and including poll number `k`
(counted from 0), when polling starts with history `h` and `acc` already
received. -/
def arrivedBy (env : Env) : List Event → List Nat → Nat → List Nat
  | h, acc, 0 => acc ++ env.arrive h
  | h, acc, k + 1 => arrivedBy env (h ++ [Event.sleep 10]) (acc ++ env.arrive h) k

/-- The history at the moment the high address byte has been written. -/
def historyHi (w : World) (address : Nat) : List Event :=
  w.trace ++ [Event.read address, Event.clear, Event.write (address / 256 % 256) true]

/-- The history at the moment the low address byte has been written. -/
def historyLo (w : World) (address : Nat) : List Event :=
  historyHi w address ++ [Event.sleep 1000, Event.write (address % 256) true]

/-- The bytes in the receive buffer at poll `k` of a read whose two address
writes succeeded. -/
def bufferedAtPoll (env : Env) (w : World) (address : Nat) (k : Nat) : List Nat :=
  arrivedBy env (historyLo w address) (env.arrive (historyHi w address)) k

/-- A world as the program starts: zeroed buffers of the allocated sizes. -/
def World0 : World :=
  { RAM := List.replicate 176 0, RAM_SIZE_LOADED := 0, RAM_PROGRAM_START := 0, length := 1,
    selector := 0, rxbuffer := List.replicate 1024 0, rxbuffercount := 0, addr_hi := 0,
    addr_lo := 0, mcudump := List.replicate 8192 0, trace := [] }

/-- A transport on which every write succeeds and the target answers each
two-byte address with the low address byte, before the first poll. -/
def echoEnv : Env :=
  { writeOk := fun _ _ => true
    arrive := fun h => match h.reverse with
      | Event.write lo true :: Event.sleep 1000 :: Event.write _ true :: _ => [lo]
      | _ => [] }

/-- A transport on which every write succeeds and the byte `b` is deposited in
the receive channel during every sleep, so already before the first poll. -/
def depositEnv (b : Nat) : Env := { writeOk := fun _ _ => true, arrive := fun _ => [b] }

/-- A transport on which every write succeeds and nothing is ever received. -/
def silentEnv : Env := { writeOk := fun _ _ => true, arrive := fun _ => [] }

/-- The globals at the moment `ReadByteFromMCU` starts polling: address
latched, buffer cleared, high byte written, 1 ms slept, low byte written. -/
def afterAddress (env : Env) (address : Nat) (w : World) : World :=
  let w := clearRx (latchAddress address w)
  let w := sleep env 1000 (portWrite env w.addr_hi w).2
  (portWrite env w.addr_lo w).2

/-- The receive buffer holds the received bytes `acc` as far as a reader can
tell: it is empty exactly when `acc` is, and slot 0 is the first byte of `acc`. -/
def Buffered (w : World) (acc : List Nat) : Prop :=
  0 < w.rxbuffer.length ∧ (acc = [] → w.rxbuffercount = 0) ∧
    (acc ≠ [] → 0 < w.rxbuffercount ∧ w.rxbuffer[0]? = acc.head?)

/-! ## The access commands, and write attempts -/

/-- The bytes handed to `port.Write`, in order, whether or not the write succeeded. -/
def attemptsOf (trace : List Event) : List Nat := (writesOf trace).map Prod.fst

/-- The transmit section of the WRITE command (main.go 493-525): the address
bytes and the data byte entered by the operator are sent one after the other;
a failed write is reported and the next byte is sent all the same. -/
def writeCommand (env : Env) (hi lo data_byte : Nat) (w : World) : World :=
  let w := clearRx { w with addr_hi := hi, addr_lo := lo }
  let w := (portWrite env w.addr_hi w).2
  let w := sleep env 1000 w
  let w := (portWrite env w.addr_lo w).2
  let w := sleep env 1000 w
  (portWrite env data_byte w).2

/-- The transmit section of the READ command (main.go 597-631), which does not
call `ReadByteFromMCU`: both address bytes are sent whatever the first write
returns, then the answer is awaited for 100 ms. -/
def readCommand (env : Env) (hi lo : Nat) (w : World) : World :=
  let w := clearRx { w with addr_hi := hi, addr_lo := lo }
  let w := (portWrite env w.addr_hi w).2
  let w := sleep env 1000 w
  let w := (portWrite env w.addr_lo w).2
  sleep env 100000 w

/-- A transport on which every write fails. -/
def deafEnv : Env := { writeOk := fun _ _ => false, arrive := fun _ => [] }

/-- A transport on which exactly the writes of the byte 3 fail. -/
def flakyEnv : Env := { writeOk := fun _ b => decide (b ≠ 3), arrive := fun _ => [] }

/-! ## Arithmetic helpers -/

theorem nib_lt (d : Nat) : nib d < 16 := by
  unfold nib
  split_ifs <;> omega

theorem shl4_or (a b : Nat) (ha : a < 16) (hb : b < 16) :
    ((a <<< 4) % 256) ||| b = 16 * a + b := by
  revert b
  revert a
  decide

theorem isDecDigit_iff (d : Nat) : isDecDigit d = true ↔ 0x30 ≤ d ∧ d ≤ 0x39 := by
  simp only [isDecDigit, Bool.and_eq_true, decide_eq_true_eq]
  omega

theorem isHexLetter_iff (d : Nat) : isHexLetter d = true ↔ 0x41 ≤ d ∧ d ≤ 0x46 := by
  simp only [isHexLetter, Bool.and_eq_true, decide_eq_true_eq]
  omega

/-- One character of `asciihex2bin`: the value selected by the two inner tests. -/
theorem digit_cases (d : Nat) :
    (isDecDigit d = true ∧ isHexLetter d = false ∧ subByte d 0x30 = nib d) ∨
    (isDecDigit d = false ∧ isHexLetter d = true ∧ subByte d 0x37 = nib d) ∨
    (isDecDigit d = false ∧ isHexLetter d = false ∧ nib d = 0) := by
  have h1 := isDecDigit_iff d
  have h2 := isHexLetter_iff d
  by_cases c1 : 0x30 ≤ d ∧ d ≤ 0x39
  · left
    refine ⟨h1.2 c1, ?_, ?_⟩
    · cases h : isHexLetter d
      · rfl
      · have := h2.1 h
        omega
    · unfold subByte nib
      rw [if_pos c1]
      omega
  · by_cases c2 : 0x41 ≤ d ∧ d ≤ 0x46
    · right; left
      refine ⟨?_, h2.2 c2, ?_⟩
      · cases h : isDecDigit d
        · rfl
        · exact absurd (h1.1 h) c1
      · unfold subByte nib
        rw [if_neg c1, if_pos c2]
        omega
    · right; right
      refine ⟨?_, ?_, ?_⟩
      · cases h : isDecDigit d
        · rfl
        · exact absurd (h1.1 h) c1
      · cases h : isHexLetter d
        · rfl
        · exact absurd (h2.1 h) c2
      · unfold nib
        rw [if_neg c1, if_neg c2]

theorem asciihex2bin_eq (d1 d2 : Nat) : asciihex2bin d1 d2 = 16 * nib d1 + nib d2 := by
  have b1 := nib_lt d1
  have b2 := nib_lt d2
  have key := shl4_or (nib d1) (nib d2) b1 b2
  have key0 := shl4_or (nib d1) 0 b1 (by decide)
  unfold asciihex2bin
  rcases digit_cases d1 with ⟨a1, a2, a3⟩ | ⟨a1, a2, a3⟩ | ⟨a1, a2, a3⟩ <;>
  rcases digit_cases d2 with ⟨c1, c2, c3⟩ | ⟨c1, c2, c3⟩ | ⟨c1, c2, c3⟩ <;>
  simp only [a1, a2, a3, c1, c2, c3, Bool.or_false, Bool.or_true, Bool.false_or, Bool.true_or,
    if_true, if_false, Bool.false_eq_true] <;>
  simp_all

theorem asciihex2bin_lt (d1 d2 : Nat) : asciihex2bin d1 d2 < 256 := by
  rw [asciihex2bin_eq]
  have b1 := nib_lt d1
  have b2 := nib_lt d2
  omega

/-! ## The loader: record fields and the payload loop -/

theorem recordAddress_eq (c4 c5 c6 c7 : Nat) :
    recordAddress c4 c5 c6 c7 = 256 * asciihex2bin c4 c5 + asciihex2bin c6 c7 := by
  have h1 := asciihex2bin_lt c4 c5
  have h2 := asciihex2bin_lt c6 c7
  unfold recordAddress
  simp only []
  rw [Nat.mod_eq_of_lt (show asciihex2bin c4 c5 < 65536 by omega),
    Nat.mod_eq_of_lt (show asciihex2bin c6 c7 < 65536 by omega), Nat.shiftLeft_eq]
  have h3 : asciihex2bin c4 c5 * 2 ^ 8 % 65536 = 2 ^ 8 * asciihex2bin c4 c5 := by
    norm_num
    omega
  rw [h3, ← Nat.mul_add_lt_is_or (by norm_num; omega)]

theorem getElem?_getD_of_lt (l : List Nat) (i : Nat) (h : i < l.length) :
    l[i]? = some (l.getD i 0) := by
  rw [List.getD_eq_getElem?_getD, List.getElem?_eq_getElem h]
  rfl

/-- The payload loop, run where every index stays inside the line and the image. -/
theorem storeLoop_spec (line : List Nat) (address : Nat) :
    ∀ (k n offset : Nat) (s : LoadState),
      subU16 address 0x50 + n + k ≤ s.RAM.length → s.RAM.length ≤ 65536 →
      s.objectlength < 65536 → offset + 2 * k ≤ line.length →
      ∃ s1, storeLoop line address k n offset s = some s1 ∧
        s1.RAM.length = s.RAM.length ∧
        s1.RAM_PROGRAM_START = s.RAM_PROGRAM_START ∧
        s1.objectlength = (s.objectlength + k) % 65536 ∧
        ∀ j, s1.RAM[j]? =
          if subU16 address 0x50 + n ≤ j ∧ j < subU16 address 0x50 + n + k then
            some (asciihex2bin (line.getD (offset + 2 * (j - (subU16 address 0x50 + n))) 0)
              (line.getD (offset + 2 * (j - (subU16 address 0x50 + n)) + 1) 0))
          else s.RAM[j]? := by
  generalize hBdef : subU16 address 0x50 = B
  intro k
  induction k with
  | zero =>
    intro n offset s _ _ ho _
    refine ⟨s, rfl, rfl, rfl, ?_, ?_⟩
    · rw [Nat.add_zero, Nat.mod_eq_of_lt ho]
    · intro j
      rw [if_neg (by omega)]
  | succ k ih =>
    intro n offset s hB hR ho hl
    have e1 := getElem?_getD_of_lt line offset (by omega)
    have e2 := getElem?_getD_of_lt line (offset + 1) (by omega)
    have hidx : (B + n % 65536) % 65536 = B + n := by omega
    obtain ⟨s1, r1, r2, r3, r4, r5⟩ := ih (n + 1) (offset + 2)
      { s with RAM := s.RAM.set (B + n) (asciihex2bin (line.getD offset 0) (line.getD (offset + 1) 0))
               objectlength := (s.objectlength + 1) % 65536 }
      (by simp only [List.length_set]; omega) (by simp only [List.length_set]; omega)
      (by simp only []; omega) (by omega)
    refine ⟨s1, ?_, ?_, ?_, ?_, ?_⟩
    · rw [storeLoop, e1, e2]
      simp only [hBdef, hidx]
      rw [if_pos (by omega)]
      exact r1
    · rw [r2, List.length_set]
    · rw [r3]
    · rw [r4]
      simp only []
      omega
    · intro j
      rw [r5 j]
      simp only [List.getElem?_set]
      by_cases hj : j = B + n
      · subst hj
        rw [if_neg (by omega), if_pos rfl, if_pos (by omega), if_pos (by omega)]
        simp
      · by_cases hin : B + n ≤ j ∧ j < B + n + (k + 1)
        · rw [if_pos (by omega), if_pos hin]
          have e : offset + 2 * (j - (B + n)) = offset + 2 + 2 * (j - (B + (n + 1))) := by omega
          rw [e]
        · rw [if_neg (by omega), if_neg hin, if_neg (by omega)]

/-! ## The loader: one line -/

theorem outOfRange_false (address : Nat) : outOfRange address = false := by
  unfold outOfRange
  by_cases h : address < 0x0050
  · have : ¬ address > 0x00BF := by omega
    simp [this]
  · simp [h]

/-- An S1 line whose record fits the RAM image: the scan continues, the payload
bytes are stored and the counter advances modulo 65536. -/
theorem loadLine_S1 (line : List Nat) (s : LoadState)
    (hRAM : s.RAM.length = 176) (ho : s.objectlength < 65536) (hS : isS1 line)
    (hL : 3 ≤ lengthField line) (hA : 0x50 ≤ addressField line)
    (hfit : addressField line + (lengthField line - 3) ≤ 0x100)
    (htext : 8 + 2 * (lengthField line - 3) ≤ line.length) :
    ∃ s1, loadLine RAM_0050 line s = .next s1 ∧ s1.RAM.length = 176 ∧
      s1.RAM_PROGRAM_START =
        (if s.RAM_PROGRAM_START = 0 then addressField line else s.RAM_PROGRAM_START) ∧
      s1.objectlength = (s.objectlength + (lengthField line - 3)) % 65536 ∧
      ∀ j, s1.RAM[j]? =
        if addressField line - 0x50 ≤ j ∧ j < addressField line - 0x50 + (lengthField line - 3) then
          some (asciihex2bin (line.getD (8 + 2 * (j - (addressField line - 0x50))) 0)
            (line.getD (8 + 2 * (j - (addressField line - 0x50)) + 1) 0))
        else s.RAM[j]? := by
  obtain ⟨hS0, hS1⟩ := hS
  have hLlt : lengthField line < 256 := asciihex2bin_lt _ _
  have hlen : recordLen (line.getD 2 0) (line.getD 3 0) = lengthField line - 3 := by
    unfold recordLen subByte
    change (lengthField line + 256 - 3) % 256 = _
    omega
  have haddr : recordAddress (line.getD 4 0) (line.getD 5 0) (line.getD 6 0) (line.getD 7 0)
      = addressField line := recordAddress_eq _ _ _ _
  have hsub : subU16 (addressField line) 0x50 = addressField line - 0x50 := by
    unfold subU16
    omega
  let s0 : LoadState :=
    if s.RAM_PROGRAM_START = 0 then { s with RAM_PROGRAM_START := addressField line } else s
  have hs0R : s0.RAM = s.RAM := by
    simp only [s0]
    split_ifs <;> rfl
  have hs0o : s0.objectlength = s.objectlength := by
    simp only [s0]
    split_ifs <;> rfl
  have hs0p : s0.RAM_PROGRAM_START =
      (if s.RAM_PROGRAM_START = 0 then addressField line else s.RAM_PROGRAM_START) := by
    simp only [s0]
    split_ifs <;> rfl
  obtain ⟨s1, r1, r2, r3, r4, r5⟩ := storeLoop_spec line (addressField line)
    (lengthField line - 3) 0 8 s0 (by rw [hsub, hs0R, hRAM]; omega) (by rw [hs0R, hRAM]; omega)
    (by rw [hs0o]; exact ho) htext
  refine ⟨s1, ?_, ?_, ?_, ?_, ?_⟩
  · unfold loadLine
    rw [hS0]
    simp only [if_true]
    rw [hS1]
    simp only [if_true]
    rw [getElem?_getD_of_lt line 2 (by omega), getElem?_getD_of_lt line 3 (by omega),
      getElem?_getD_of_lt line 4 (by omega), getElem?_getD_of_lt line 5 (by omega),
      getElem?_getD_of_lt line 6 (by omega), getElem?_getD_of_lt line 7 (by omega)]
    simp only [hlen, haddr, outOfRange_false, if_true, Bool.false_eq_true, if_false]
    change (match storeLoop line (addressField line) (lengthField line - 3) 0 8 s0 with
      | some s1 => LineResult.next s1
      | none => LineResult.panic) = _
    rw [r1]
  · rw [r2, hs0R, hRAM]
  · rw [r3, hs0p]
  · rw [r4, hs0o]
  · intro j
    rw [r5 j, hsub, hs0R]
    simp only [Nat.add_zero]

/-! ## The loader: invariants of the scan -/

theorem storeLoop_inv (line : List Nat) (address : Nat) :
    ∀ (k n offset : Nat) (s s1 : LoadState), storeLoop line address k n offset s = some s1 →
      s1.RAM.length = s.RAM.length ∧ (s.objectlength < 65536 → s1.objectlength < 65536) ∧
      s1.RAM_PROGRAM_START = s.RAM_PROGRAM_START := by
  intro k
  induction k with
  | zero =>
    intro n offset s s1 h
    rw [storeLoop] at h
    cases h
    exact ⟨rfl, fun h => h, rfl⟩
  | succ k ih =>
    intro n offset s s1 h
    rw [storeLoop] at h
    split at h
    · simp only [] at h
      split_ifs at h
      obtain ⟨a, b, c⟩ := ih _ _ _ _ h
      refine ⟨?_, ?_, ?_⟩
      · rw [a, List.length_set]
      · intro _
        apply b
        simp only []
        omega
      · rw [c]
    · cases h

theorem loadLine_ret (targetarea : Nat) (line : List Nat) (s s1 : LoadState) (code : Int) :
    loadLine targetarea line s ≠ .ret code s1 := by
  unfold loadLine
  simp only [outOfRange_false]
  intro h
  repeat' split at h
  all_goals try cases h
  all_goals simp_all

theorem loadLine_inv (targetarea : Nat) (line : List Nat) (s s1 : LoadState)
    (h : loadLine targetarea line s = .next s1) :
    s1.RAM.length = s.RAM.length ∧ (s.objectlength < 65536 → s1.objectlength < 65536) := by
  unfold loadLine at h
  simp only [outOfRange_false] at h
  repeat' split at h
  all_goals try cases h
  all_goals first
    | exact ⟨rfl, fun h => h⟩
    | (rename_i hst
       obtain ⟨a, b, _⟩ := storeLoop_inv _ _ _ _ _ _ _ hst
       refine ⟨?_, ?_⟩
       · rw [a]
         split_ifs <;> rfl
       · intro ho
         apply b
         split_ifs <;> exact ho)

theorem scanLoop_inv (targetarea : Nat) :
    ∀ (lines : List (List Nat)) (s s1 : LoadState) (code : Int),
      scanLoop targetarea lines s = some (code, s1) →
      code = 0 ∧ s1.RAM.length = s.RAM.length ∧ (s.objectlength < 65536 → s1.objectlength < 65536) := by
  intro lines
  induction lines with
  | nil =>
    intro s s1 code h
    rw [scanLoop] at h
    cases h
    exact ⟨rfl, rfl, fun h => h⟩
  | cons line rest ih =>
    intro s s1 code h
    rw [scanLoop] at h
    split at h
    · rename_i s2 hl
      obtain ⟨a, b⟩ := loadLine_inv _ _ _ _ hl
      obtain ⟨c, d, e⟩ := ih _ _ _ h
      exact ⟨c, by rw [d, a], fun ho => e (b ho)⟩
    · rename_i c2 s2 hl
      exact absurd hl (loadLine_ret _ _ _ _ _)
    · cases h

theorem scanLoop_append (targetarea : Nat) (post : List (List Nat)) :
    ∀ (pre : List (List Nat)) (s s1 : LoadState),
      scanLoop targetarea pre s = some (0, s1) →
      scanLoop targetarea (pre ++ post) s = scanLoop targetarea post s1 := by
  intro pre
  induction pre with
  | nil =>
    intro s s1 h
    rw [scanLoop] at h
    cases h
    rfl
  | cons line rest ih =>
    intro s s1 h
    rw [scanLoop] at h
    rw [List.cons_append, scanLoop]
    split at h
    · exact ih _ _ h
    · rename_i c2 s2 hl
      exact absurd hl (loadLine_ret _ _ _ _ _)
    · cases h

/-! ## The loader: claims about single records -/

theorem RAM0_length : RAM0.length = 176 := List.length_replicate _ _

theorem LoadSrec_some (lines : List (List Nat)) (targetarea : Nat) (s : LoadState) :
    LoadSrec (some lines) targetarea s =
      scanLoop targetarea lines { s with objectlength := 0 } := rfl

theorem scanLoop_replicate_oneByte :
    ∀ (n : Nat) (s : LoadState), s.RAM.length = 176 → s.objectlength < 65536 →
      ∃ s1, scanLoop RAM_0050 (List.replicate n oneByteRecord) s = some (0, s1) ∧
        s1.objectlength = (s.objectlength + n) % 65536 := by
  intro n
  induction n with
  | zero =>
    intro s _ ho
    exact ⟨s, rfl, by rw [Nat.add_zero, Nat.mod_eq_of_lt ho]⟩
  | succ n ih =>
    intro s hR ho
    obtain ⟨s1, r1, r2, _, r4, _⟩ := loadLine_S1 oneByteRecord s hR ho (by decide) (by decide)
      (by decide) (by decide) (by decide)
    obtain ⟨s2, q1, q2⟩ := ih s1 r2 (by rw [r4]; omega)
    refine ⟨s2, ?_, ?_⟩
    · rw [List.replicate_succ, scanLoop, r1]
      exact q1
    · rw [q2, r4]
      have : lengthField oneByteRecord - 3 = 1 := by decide
      omega

/-- C1 (as stated) fails: after 65535 one-byte S1 records the 16-bit counter
holds 65535, and one more one-byte record that fits the image takes it to 0,
not to 65536. -/
theorem LoadSrec_count_wraps :
    (LoadSrec (some (List.replicate 65535 oneByteRecord)) RAM_0050 ⟨RAM0, 0, 0⟩).map
        (fun r => (r.1, r.2.objectlength)) = some (0, 65535) ∧
    (LoadSrec (some (List.replicate 65535 oneByteRecord ++ [oneByteRecord])) RAM_0050
        ⟨RAM0, 0, 0⟩).map (fun r => (r.1, r.2.objectlength)) = some (0, 0) := by
  have e : List.replicate 65535 oneByteRecord ++ [oneByteRecord]
      = List.replicate 65536 oneByteRecord := (List.replicate_succ' 65535 oneByteRecord).symm
  obtain ⟨s1, a1, a2⟩ := scanLoop_replicate_oneByte 65535 ⟨RAM0, 0, 0⟩ RAM0_length (by decide)
  obtain ⟨s2, b1, b2⟩ := scanLoop_replicate_oneByte 65536 ⟨RAM0, 0, 0⟩ RAM0_length (by decide)
  rw [e, LoadSrec_some, LoadSrec_some, a1, b1]
  simp only [Option.map_some', a2, b2]
  decide

/-- C1 (amended): an S1 line with length field `L ≥ 3` and address `A`, whose
record fits the RAM image and whose text carries all `L-3` payload pairs, makes
`LoadSrec` store `asciihex2bin` of the `i`-th payload pair at offset
`(A-0x50)+i` for every `i < L-3`, leaves every other image byte unchanged, and
advances the 16-bit bytes-written counter by `L-3` modulo 65536 (by exactly
`L-3` as long as it does not pass 65535). -/
theorem LoadSrec_S1_record (pre : List (List Nat)) (line : List Nat) (s s1 : LoadState)
    (hRAM : s.RAM.length = 176)
    (hpre : LoadSrec (some pre) RAM_0050 s = some (0, s1))
    (hS : isS1 line) (hL : 3 ≤ lengthField line) (hA : 0x50 ≤ addressField line)
    (hfit : addressField line + (lengthField line - 3) ≤ 0x100)
    (htext : 8 + 2 * (lengthField line - 3) ≤ line.length) :
    ∃ s2, LoadSrec (some (pre ++ [line])) RAM_0050 s = some (0, s2) ∧
      s2.RAM.length = 176 ∧
      (∀ i, i < lengthField line - 3 →
        s2.RAM[(addressField line - 0x50) + i]? =
          some (asciihex2bin (line.getD (8 + 2 * i) 0) (line.getD (9 + 2 * i) 0))) ∧
      (∀ j, ¬ (addressField line - 0x50 ≤ j ∧
          j < addressField line - 0x50 + (lengthField line - 3)) → s2.RAM[j]? = s1.RAM[j]?) ∧
      s2.objectlength = (s1.objectlength + (lengthField line - 3)) % 65536 ∧
      (s1.objectlength + (lengthField line - 3) < 65536 →
        s2.objectlength = s1.objectlength + (lengthField line - 3)) := by
  rw [LoadSrec_some] at hpre
  obtain ⟨_, i1, i2⟩ := scanLoop_inv _ _ _ _ _ hpre
  have hR1 : s1.RAM.length = 176 := by rw [i1]; exact hRAM
  have ho1 : s1.objectlength < 65536 := i2 (by show (0 : Nat) < 65536; decide)
  obtain ⟨s2, r1, r2, _, r4, r5⟩ := loadLine_S1 line s1 hR1 ho1 hS hL hA hfit htext
  refine ⟨s2, ?_, r2, ?_, ?_, r4, ?_⟩
  · rw [LoadSrec_some, scanLoop_append _ _ _ _ _ hpre, scanLoop, r1]
    rfl
  · intro i hi
    rw [r5, if_pos (by omega)]
    have e1 : addressField line - 0x50 + i - (addressField line - 0x50) = i := by omega
    rw [e1, show 8 + 2 * i + 1 = 9 + 2 * i by omega]
  · intro j hj
    rw [r5, if_neg hj]
  · intro h
    rw [r4, Nat.mod_eq_of_lt h]

set_option maxRecDepth 100000 in
/-- Witness for `LoadSrec_S1_record`: the file whose only line is
`S1050050AABB00`, loaded into the zeroed image. -/
theorem LoadSrec_S1_record_witness :
    (LoadSrec (some ([] ++ [ascii "S1050050AABB00"])) RAM_0050 ⟨RAM0, 0, 7⟩).map
      (fun r => (r.1, r.2.objectlength)) = some (0, 2) := by
  obtain ⟨s2, h, -, -, -, h4, -⟩ := LoadSrec_S1_record [] (ascii "S1050050AABB00")
    ⟨RAM0, 0, 7⟩ ⟨RAM0, 0, 0⟩ RAM0_length (by decide) (by decide) (by decide) (by decide)
    (by decide) (by decide)
  have e : lengthField (ascii "S1050050AABB00") - 3 = 2 := by decide
  rw [h, Option.map_some', h4, e]
  rfl

/-- C3: `asciihex2bin d1 d2 = 16 * nib d1 + nib d2` for every pair of bytes,
where `nib` is 0..9 on `'0'..'9'`, 10..15 on `'A'..'F'` and 0 elsewhere
(lowercase included); so `asciihex2bin '1' 'A' = 0x1A`, two uppercase hex
digits decode to their standard value, and the function is total. -/
theorem asciihex2bin_spec :
    (∀ d1 d2 : Nat, asciihex2bin d1 d2 = 16 * nib d1 + nib d2) ∧
    asciihex2bin 0x31 0x41 = 0x1A ∧
    (∀ h l : Fin 16, asciihex2bin (hexDigit h) (hexDigit l) = 16 * h + l) ∧
    (∀ d : Fin 6, nib (0x61 + d) = 0) := by
  refine ⟨asciihex2bin_eq, by decide, ?_, by decide⟩
  intro h l
  rw [asciihex2bin_eq]
  have : ∀ v : Fin 16, nib (hexDigit v) = v := by decide
  rw [this h, this l]

set_option maxRecDepth 100000 in
/-- C4 (code at the failing inputs): an S1 record at address 0x0000, below the
window, is not answered with -1. With one payload byte the store
`RAM[(0x0000-0x50)+0]` is out of range and the run panics; with an empty
payload `LoadSrec` returns 0 and goes on to store the next record. -/
theorem LoadSrec_below_window :
    LoadSrec (some [ascii "S1040000AA51"]) RAM_0050 ⟨RAM0, 0, 0⟩ = none ∧
    (LoadSrec (some [ascii "S1030000FC", oneByteRecord]) RAM_0050 ⟨RAM0, 0, 0⟩).map
      (fun r => (r.1, r.2.objectlength, r.2.RAM.take 2)) = some (0, 1, [0xAA, 0]) := by
  decide

set_option maxRecDepth 100000 in
/-- C5 (code at the failing input): a load of a file starting at 0x0050 followed
by a load of a file whose first S1 line is at 0x0060 leaves
`RAM_PROGRAM_START` at 0x0050. -/
theorem LoadSrec_second_load_keeps_start :
    ((LoadSrec (some [oneByteRecord]) RAM_0050 ⟨RAM0, 0, 0⟩).bind
      (fun r => LoadSrec (some [ascii "S1040060BBE0"]) RAM_0050 r.2)).map
      (fun r => (r.1, r.2.RAM_PROGRAM_START, addressField (ascii "S1040060BBE0")))
      = some (0, 0x50, 0x60) := by
  decide

/-! ## Round trip: encoded records decode to the bytes they carry -/

theorem nib_hexDigit : ∀ v : Fin 16, nib (hexDigit v) = v := by decide

theorem decode_hexDigits (b : Nat) (hb : b < 256) :
    asciihex2bin (hexDigit (b / 16)) (hexDigit (b % 16)) = b := by
  rw [asciihex2bin_eq]
  have h1 := nib_hexDigit ⟨b / 16, by omega⟩
  have h2 := nib_hexDigit ⟨b % 16, by omega⟩
  simp only [] at h1 h2
  rw [h1, h2]
  omega

theorem hexBytes_getElem? :
    ∀ (bs : List Nat) (i : Nat),
      (hexBytes bs)[2 * i]? = (bs[i]?).map (fun b => hexDigit (b / 16)) ∧
      (hexBytes bs)[2 * i + 1]? = (bs[i]?).map (fun b => hexDigit (b % 16)) := by
  intro bs
  induction bs with
  | nil =>
    intro i
    simp [hexBytes]
  | cons b bs ih =>
    intro i
    cases i with
    | zero => simp [hexBytes]
    | succ i =>
      have e1 : 2 * (i + 1) = 2 * i + 1 + 1 := by omega
      have e2 : 2 * (i + 1) + 1 = 2 * i + 1 + 1 + 1 := by omega
      obtain ⟨a1, a2⟩ := ih i
      rw [e2, e1]
      simp only [hexBytes, List.getElem?_cons_succ]
      exact ⟨a1, a2⟩

theorem hexBytes_length : ∀ bs : List Nat, (hexBytes bs).length = 2 * bs.length := by
  intro bs
  induction bs with
  | nil => rfl
  | cons b bs ih =>
    simp only [hexBytes, List.length_cons, ih]
    omega

theorem hexBytes_cons (b : Nat) (bs : List Nat) :
    hexBytes (b :: bs) = hexDigit (b / 16) :: hexDigit (b % 16) :: hexBytes bs := rfl

theorem encodeRecord_eq (A : Nat) (chunk : List Nat) :
    encodeRecord A chunk =
      0x53 :: 0x31 :: hexDigit ((chunk.length + 3) / 16) :: hexDigit ((chunk.length + 3) % 16) ::
      hexDigit (A / 256 / 16) :: hexDigit (A / 256 % 16) ::
      hexDigit (A % 256 / 16) :: hexDigit (A % 256 % 16) ::
      hexBytes (chunk ++ [checksum ((chunk.length + 3) :: (A / 256) :: (A % 256) :: chunk)]) := rfl

theorem encodeRecord_length (A : Nat) (chunk : List Nat) :
    (encodeRecord A chunk).length = 10 + 2 * chunk.length := by
  rw [encodeRecord_eq]
  simp only [List.length_cons, hexBytes_length, List.length_append, List.length_nil]
  omega

theorem encodeRecord_isS1 (A : Nat) (chunk : List Nat) : isS1 (encodeRecord A chunk) := by
  constructor <;> rfl

theorem encodeRecord_lengthField (A : Nat) (chunk : List Nat) (hc : chunk.length + 3 < 256) :
    lengthField (encodeRecord A chunk) = chunk.length + 3 := by
  rw [encodeRecord_eq]
  simp only [lengthField, List.getD_cons_succ, List.getD_cons_zero]
  exact decode_hexDigits _ hc

theorem encodeRecord_addressField (A : Nat) (chunk : List Nat) (hA : A < 65536) :
    addressField (encodeRecord A chunk) = A := by
  rw [encodeRecord_eq]
  simp only [addressField, List.getD_cons_succ, List.getD_cons_zero]
  rw [decode_hexDigits _ (by omega), decode_hexDigits _ (by omega)]
  omega

theorem encodeRecord_payload (A : Nat) (chunk : List Nat) (hb : ∀ b ∈ chunk, b < 256) (i : Nat)
    (hi : i < chunk.length) :
    some (asciihex2bin ((encodeRecord A chunk).getD (8 + 2 * i) 0)
      ((encodeRecord A chunk).getD (8 + 2 * i + 1) 0)) = chunk[i]? := by
  have e1 : 8 + 2 * i = 2 * i + 1 + 1 + 1 + 1 + 1 + 1 + 1 + 1 := by omega
  have e2 : 8 + 2 * i + 1 = 2 * i + 1 + 1 + 1 + 1 + 1 + 1 + 1 + 1 + 1 := by omega
  rw [e2, e1, encodeRecord_eq]
  simp only [List.getD_cons_succ]
  obtain ⟨a1, a2⟩ := hexBytes_getElem?
    (chunk ++ [checksum ((chunk.length + 3) :: (A / 256) :: (A % 256) :: chunk)]) i
  rw [List.getD_eq_getElem?_getD, List.getD_eq_getElem?_getD, a1, a2,
    List.getElem?_append_left hi, List.getElem?_eq_getElem hi]
  simp only [Option.map_some', Option.getD_some]
  rw [decode_hexDigits _ (hb _ (List.getElem_mem hi))]

theorem scanLoop_encodeRecords :
    ∀ (chunks : List (List Nat)) (base : Nat) (s : LoadState),
      s.RAM.length = 176 → s.objectlength < 65536 → 0x50 ≤ base →
      base + chunks.flatten.length ≤ 0x100 → (∀ chunk ∈ chunks, ∀ b ∈ chunk, b < 256) →
      ∃ s1, scanLoop RAM_0050 (encodeRecords base chunks) s = some (0, s1) ∧
        s1.RAM.length = 176 ∧
        s1.objectlength = (s.objectlength + chunks.flatten.length) % 65536 ∧
        ∀ j, s1.RAM[j]? =
          if base - 0x50 ≤ j ∧ j < base - 0x50 + chunks.flatten.length then
            chunks.flatten[j - (base - 0x50)]?
          else s.RAM[j]? := by
  intro chunks
  induction chunks with
  | nil =>
    intro base s hR ho _ _ _
    refine ⟨s, rfl, hR, ?_, ?_⟩
    · simp only [List.flatten_nil, List.length_nil, Nat.add_zero]
      rw [Nat.mod_eq_of_lt ho]
    · intro j
      rw [if_neg]
      simp only [List.flatten_nil, List.length_nil]
      omega
  | cons chunk rest ih =>
    intro base s hR ho hbase hfit hbytes
    rw [List.flatten_cons, List.length_append] at hfit
    have hb1 : ∀ b ∈ chunk, b < 256 := hbytes chunk (List.mem_cons_self _ _)
    have hb2 : ∀ ch ∈ rest, ∀ b ∈ ch, b < 256 := fun ch hch => hbytes ch (List.mem_cons_of_mem _ hch)
    have hLf := encodeRecord_lengthField base chunk (by omega)
    have hAf := encodeRecord_addressField base chunk (by omega)
    obtain ⟨s1, r1, r2, _, r4, r5⟩ := loadLine_S1 (encodeRecord base chunk) s hR ho
      (encodeRecord_isS1 base chunk) (by rw [hLf]; omega) (by rw [hAf]; exact hbase)
      (by rw [hLf, hAf]; omega) (by rw [hLf, encodeRecord_length]; omega)
    rw [hLf, Nat.add_sub_cancel] at r4
    obtain ⟨s2, q1, q2, q3, q4⟩ := ih (base + chunk.length) s1 r2 (by rw [r4]; omega)
      (by omega) (by omega) hb2
    refine ⟨s2, ?_, q2, ?_, ?_⟩
    · rw [encodeRecords, scanLoop, r1]
      exact q1
    · rw [q3, r4, List.flatten_cons, List.length_append]
      omega
    · intro j
      rw [q4 j, r5 j, hLf, hAf, Nat.add_sub_cancel, List.flatten_cons, List.length_append]
      by_cases h1 : base - 0x50 ≤ j ∧ j < base - 0x50 + chunk.length
      · rw [if_neg (by omega), if_pos h1, if_pos (by omega),
          List.getElem?_append_left (by omega)]
        exact encodeRecord_payload base chunk hb1 _ (by omega)
      · by_cases h2 : base + chunk.length - 0x50 ≤ j ∧
            j < base + chunk.length - 0x50 + rest.flatten.length
        · rw [if_pos h2, if_pos (by omega), List.getElem?_append_right (by omega)]
          congr 1
          omega
        · rw [if_neg h2, if_neg h1, if_neg (by omega)]

/-- C2: for every byte sequence, given as any split into consecutive chunks,
and every base address at which it fits the RAM window, encoding the chunks as
S1 records (uppercase hex, length field = payload length + 3, big-endian
address, consecutive addresses from the base) and loading the lines with
`LoadSrec` returns 0, reports the sequence length as byte count, and leaves
the sequence in the image at offsets `base-0x50` onward. -/
theorem LoadSrec_round_trip (chunks : List (List Nat)) (base : Nat) (s : LoadState)
    (hRAM : s.RAM.length = 176) (hbase : 0x50 ≤ base)
    (hfit : base + chunks.flatten.length ≤ 0x100)
    (hbytes : ∀ chunk ∈ chunks, ∀ b ∈ chunk, b < 256) :
    ∃ s1, LoadSrec (some (encodeRecords base chunks)) RAM_0050 s = some (0, s1) ∧
      s1.objectlength = chunks.flatten.length ∧
      (s1.RAM.drop (base - 0x50)).take chunks.flatten.length = chunks.flatten := by
  obtain ⟨s1, r1, r2, r3, r4⟩ := scanLoop_encodeRecords chunks base { s with objectlength := 0 }
    hRAM (by show (0 : Nat) < 65536; decide) hbase hfit hbytes
  refine ⟨s1, ?_, ?_, ?_⟩
  · rw [LoadSrec_some]
    exact r1
  · rw [r3]
    simp only [Nat.zero_add]
    omega
  · apply List.ext_getElem?
    intro i
    rw [List.getElem?_take, List.getElem?_drop, r4]
    by_cases hi : i < chunks.flatten.length
    · rw [if_pos hi, if_pos (by omega)]
      congr 1
      omega
    · rw [if_neg hi, List.getElem?_eq_none (by omega)]

set_option maxRecDepth 100000 in
/-- Witness for `LoadSrec_round_trip`: the bytes AA BB 01 as two records at 0x0050. -/
theorem LoadSrec_round_trip_witness :
    (LoadSrec (some (encodeRecords 0x50 [[0xAA, 0xBB], [0x01]])) RAM_0050 ⟨RAM0, 0, 7⟩).map
      (fun r => (r.1, r.2.objectlength, (r.2.RAM.drop (0x50 - 0x50)).take 3))
      = some (0, 3, [0xAA, 0xBB, 0x01]) := by
  obtain ⟨s1, h, h1, h2⟩ := LoadSrec_round_trip [[0xAA, 0xBB], [0x01]] 0x50 ⟨RAM0, 0, 7⟩
    RAM0_length (by decide) (by decide) (by decide)
  rw [h, Option.map_some']
  simp only [h1]
  exact congrArg some (congrArg (Prod.mk 0) (congrArg (Prod.mk 3) h2))

/-! ## The receive buffer -/

theorem fillLoop_succ (n v : Nat) (l : List Nat) :
    fillLoop (n + 1) v l = (fillLoop n v l).set n v := by
  unfold fillLoop
  rw [List.range_succ, List.foldl_append]
  rfl

theorem fillLoop_length (n v : Nat) (l : List Nat) : (fillLoop n v l).length = l.length := by
  induction n with
  | zero => rfl
  | succ n ih => rw [fillLoop_succ, List.length_set, ih]

theorem fillLoop_getElem? (n v : Nat) (l : List Nat) (j : Nat) :
    (fillLoop n v l)[j]? = if j < n ∧ j < l.length then some v else l[j]? := by
  induction n with
  | zero =>
    rw [if_neg (by omega)]
    rfl
  | succ n ih =>
    rw [fillLoop_succ, List.getElem?_set, fillLoop_length, ih]
    by_cases h1 : n = j
    · subst h1
      rw [if_pos rfl]
      by_cases h2 : n < l.length
      · rw [if_pos h2, if_pos ⟨by omega, h2⟩]
      · rw [if_neg h2, if_neg (by omega), List.getElem?_eq_none (by omega)]
    · rw [if_neg h1]
      by_cases h3 : j < n ∧ j < l.length
      · rw [if_pos h3, if_pos ⟨by omega, h3.2⟩]
      · rw [if_neg h3, if_neg (by omega)]

/-- The fill loop over a buffer of exactly `n` slots leaves `n` copies of `v`. -/
theorem fillLoop_eq_replicate (n v : Nat) (l : List Nat) (h : l.length = n) :
    fillLoop n v l = List.replicate n v := by
  apply List.ext_getElem?
  intro j
  rw [fillLoop_getElem?, List.getElem?_replicate]
  by_cases hj : j < n
  · rw [if_pos ⟨hj, by omega⟩, if_pos hj]
  · rw [if_neg (by omega), if_neg hj, List.getElem?_eq_none (by omega)]

theorem rxStore_buffered (b : Nat) (w : World) (acc : List Nat) (h : Buffered w acc) :
    Buffered (rxStore b w) (acc ++ [b]) := by
  obtain ⟨h0, h1, h2⟩ := h
  refine ⟨by simp only [rxStore, List.length_set]; exact h0, fun e => by simp at e, fun _ => ?_⟩
  cases acc with
  | nil =>
    have hc := h1 rfl
    simp only [rxStore, hc, List.nil_append, List.head?_cons]
    refine ⟨by decide, ?_⟩
    rw [List.getElem?_set_self h0]
  | cons a acc =>
    obtain ⟨hc, hd⟩ := h2 (by simp)
    simp only [rxStore, List.cons_append, List.head?_cons] at hd ⊢
    refine ⟨by split_ifs <;> omega, ?_⟩
    rw [List.getElem?_set_ne (by omega)]
    exact hd

theorem SerialRx_buffered (bytes : List Nat) :
    ∀ (w : World) (acc : List Nat), Buffered w acc → Buffered (SerialRx bytes w) (acc ++ bytes) := by
  induction bytes with
  | nil =>
    intro w acc h
    rw [List.append_nil]
    exact h
  | cons b bytes ih =>
    intro w acc h
    have := ih (rxStore b w) (acc ++ [b]) (rxStore_buffered b w acc h)
    rw [List.append_assoc] at this
    exact this

/-- The drain loop touches only `rxbuffer` and `rxbuffercount`. -/
theorem SerialRx_frame (bytes : List Nat) :
    ∀ w : World, (SerialRx bytes w).trace = w.trace ∧ (SerialRx bytes w).mcudump = w.mcudump ∧
      (SerialRx bytes w).RAM = w.RAM ∧ (SerialRx bytes w).selector = w.selector ∧
      (SerialRx bytes w).length = w.length ∧
      (SerialRx bytes w).rxbuffer.length = w.rxbuffer.length := by
  induction bytes with
  | nil =>
    intro w
    exact ⟨rfl, rfl, rfl, rfl, rfl, rfl⟩
  | cons b bytes ih =>
    intro w
    obtain ⟨a1, a2, a3, a4, a5, a6⟩ := ih (rxStore b w)
    refine ⟨a1, a2, a3, a4, a5, ?_⟩
    rw [show SerialRx (b :: bytes) w = SerialRx bytes (rxStore b w) from rfl, a6]
    simp only [rxStore, List.length_set]

theorem SerialRx_eq (bytes : List Nat) :
    ∀ w : World, SerialRx bytes w =
      { w with rxbuffer := (SerialRx bytes w).rxbuffer
               rxbuffercount := (SerialRx bytes w).rxbuffercount } := by
  induction bytes with
  | nil =>
    intro w
    rfl
  | cons b bytes ih =>
    intro w
    have e : SerialRx (b :: bytes) w = SerialRx bytes (rxStore b w) := rfl
    rw [e]
    exact ih (rxStore b w)

theorem sleep_eq (env : Env) (m : Nat) (w : World) :
    sleep env m w =
      { w with rxbuffer := (sleep env m w).rxbuffer
               rxbuffercount := (sleep env m w).rxbuffercount
               trace := w.trace ++ [Event.sleep m] } := by
  have e := SerialRx_eq (env.arrive w.trace) w
  unfold sleep
  simp only []
  rw [e]

theorem sleep_trace (env : Env) (m : Nat) (w : World) :
    (sleep env m w).trace = w.trace ++ [Event.sleep m] := by
  simp only [sleep, (SerialRx_frame _ w).1]

theorem sleep_frame (env : Env) (m : Nat) (w : World) :
    (sleep env m w).mcudump = w.mcudump ∧ (sleep env m w).RAM = w.RAM ∧
      (sleep env m w).selector = w.selector ∧ (sleep env m w).length = w.length ∧
      (sleep env m w).rxbuffer.length = w.rxbuffer.length := by
  obtain ⟨_, a2, a3, a4, a5, a6⟩ := SerialRx_frame (env.arrive w.trace) w
  exact ⟨a2, a3, a4, a5, a6⟩

theorem sleep_buffered (env : Env) (m : Nat) (w : World) (acc : List Nat) (h : Buffered w acc) :
    Buffered (sleep env m w) (acc ++ env.arrive w.trace) :=
  SerialRx_buffered _ w acc h

theorem clearRx_buffered (w : World) (h : 0 < w.rxbuffer.length) : Buffered (clearRx w) [] := by
  refine ⟨?_, fun _ => rfl, fun e => absurd rfl e⟩
  simp only [clearRx, fillLoop_length]
  exact h

/-! ## The polling loop -/

theorem arrivedBy_prefix (env : Env) :
    ∀ (k : Nat) (h : List Event) (acc : List Nat),
      ∃ rest, arrivedBy env h acc k = (acc ++ env.arrive h) ++ rest := by
  intro k
  induction k with
  | zero =>
    intro h acc
    exact ⟨[], by rw [List.append_nil]; rfl⟩
  | succ k ih =>
    intro h acc
    obtain ⟨rest, e⟩ := ih (h ++ [Event.sleep 10]) (acc ++ env.arrive h)
    exact ⟨env.arrive (h ++ [Event.sleep 10]) ++ rest, by
      rw [arrivedBy, e, List.append_assoc]⟩

theorem arrivedBy_head (env : Env) (k : Nat) (h : List Event) (acc : List Nat)
    (hne : acc ++ env.arrive h ≠ []) :
    arrivedBy env h acc k ≠ [] ∧ (arrivedBy env h acc k).head? = (acc ++ env.arrive h).head? := by
  obtain ⟨rest, e⟩ := arrivedBy_prefix env k h acc
  rw [e]
  refine ⟨?_, List.head?_append_of_ne_nil _ hne⟩
  intro hnil
  exact hne (List.append_eq_nil.1 hnil).1

theorem pollLoop_hit (env : Env) (rt : Nat) (w : World)
    (h : 0 < (sleep env 10 w).rxbuffercount) :
    pollLoop env (rt + 1) w = (rt + 1, sleep env 10 w) := by
  rw [pollLoop, if_pos h]

theorem pollLoop_last (env : Env) (w : World) (h : (sleep env 10 w).rxbuffercount = 0) :
    pollLoop env 1 w = (0, sleep env 10 w) := by
  rw [pollLoop, if_neg (by omega)]
  rfl

theorem pollLoop_miss (env : Env) (rt : Nat) (w : World)
    (h : (sleep env 10 w).rxbuffercount = 0) :
    pollLoop env (rt + 2) w = pollLoop env (rt + 1) (sleep env 10 w) := by
  rw [pollLoop, if_neg (by omega), if_neg (by omega)]

/-- The polling loop entered with `readtimeout = rt + 1`: it sleeps between 1
and `rt + 1` times, ends with a non-zero `readtimeout` and the first received
byte in slot 0 if a byte has arrived by one of these polls, and ends with
`readtimeout = 0` if none has. -/
theorem pollLoop_spec (env : Env) :
    ∀ (rt : Nat) (w : World) (acc : List Nat), Buffered w acc →
      (∃ p, 1 ≤ p ∧ p ≤ rt + 1 ∧
        (pollLoop env (rt + 1) w).2.trace = w.trace ++ List.replicate p (Event.sleep 10)) ∧
      (∀ k, k ≤ rt → arrivedBy env w.trace acc k ≠ [] →
        (pollLoop env (rt + 1) w).1 ≠ 0 ∧ 0 < (pollLoop env (rt + 1) w).2.rxbuffercount ∧
        (pollLoop env (rt + 1) w).2.rxbuffer[0]? = (arrivedBy env w.trace acc k).head?) ∧
      ((∀ k, k ≤ rt → arrivedBy env w.trace acc k = []) → (pollLoop env (rt + 1) w).1 = 0) := by
  intro rt
  induction rt with
  | zero =>
    intro w acc hB
    have hB1 := sleep_buffered env 10 w acc hB
    by_cases hc : 0 < (sleep env 10 w).rxbuffercount
    · have hne : acc ++ env.arrive w.trace ≠ [] := fun e => by
        have := hB1.2.1 e
        omega
      rw [pollLoop_hit env 0 w hc]
      refine ⟨⟨1, le_refl _, le_refl _, sleep_trace env 10 w⟩, ?_, ?_⟩
      · intro k _ _
        refine ⟨by simp, hc, ?_⟩
        rw [(arrivedBy_head env k w.trace acc hne).2]
        exact (hB1.2.2 hne).2
      · intro hall
        exact absurd (hall 0 (le_refl _)) (arrivedBy_head env 0 w.trace acc hne).1
    · have hc0 : (sleep env 10 w).rxbuffercount = 0 := by omega
      have hnil : acc ++ env.arrive w.trace = [] := by
        by_contra hne
        have := (hB1.2.2 hne).1
        omega
      rw [pollLoop_last env w hc0]
      refine ⟨⟨1, le_refl _, le_refl _, sleep_trace env 10 w⟩, ?_, fun _ => rfl⟩
      intro k hk hne
      have hk0 : k = 0 := by omega
      subst hk0
      exact absurd hnil hne
  | succ rt ih =>
    intro w acc hB
    have hB1 := sleep_buffered env 10 w acc hB
    by_cases hc : 0 < (sleep env 10 w).rxbuffercount
    · have hne : acc ++ env.arrive w.trace ≠ [] := fun e => by
        have := hB1.2.1 e
        omega
      rw [pollLoop_hit env (rt + 1) w hc]
      refine ⟨⟨1, le_refl _, by omega, sleep_trace env 10 w⟩, ?_, ?_⟩
      · intro k _ _
        refine ⟨by simp, hc, ?_⟩
        rw [(arrivedBy_head env k w.trace acc hne).2]
        exact (hB1.2.2 hne).2
      · intro hall
        exact absurd (hall 0 (Nat.zero_le _)) (arrivedBy_head env 0 w.trace acc hne).1
    · have hc0 : (sleep env 10 w).rxbuffercount = 0 := by omega
      have hnil : acc ++ env.arrive w.trace = [] := by
        by_contra hne
        have := (hB1.2.2 hne).1
        omega
      rw [pollLoop_miss env rt w hc0]
      obtain ⟨⟨p, p1, p2, p3⟩, q2, q3⟩ := ih (sleep env 10 w) (acc ++ env.arrive w.trace) hB1
      rw [sleep_trace] at p3 q2 q3
      refine ⟨⟨p + 1, by omega, by omega, ?_⟩, ?_, ?_⟩
      · rw [p3, List.append_assoc, List.replicate_succ]
        rfl
      · intro k hk hne
        cases k with
        | zero => exact absurd hnil hne
        | succ k => exact q2 k (by omega) hne
      · intro hall
        apply q3
        intro k hk
        exact hall (k + 1) (by omega)

/-- The polling loop touches only the receive buffer and the trace. -/
theorem pollLoop_frame (env : Env) :
    ∀ (rt : Nat) (w : World), (pollLoop env rt w).2.mcudump = w.mcudump ∧
      (pollLoop env rt w).2.rxbuffer.length = w.rxbuffer.length ∧
      readsOf (pollLoop env rt w).2.trace = readsOf w.trace ∧
      writesOf (pollLoop env rt w).2.trace = writesOf w.trace := by
  intro rt
  induction rt with
  | zero =>
    intro w
    exact ⟨rfl, rfl, rfl, rfl⟩
  | succ rt ih =>
    intro w
    obtain ⟨f1, _, _, _, f5⟩ := sleep_frame env 10 w
    have ft : readsOf (sleep env 10 w).trace = readsOf w.trace := by
      rw [sleep_trace, readsOf, List.filterMap_append]
      simp [readsOf]
    have fw : writesOf (sleep env 10 w).trace = writesOf w.trace := by
      rw [sleep_trace, writesOf, List.filterMap_append]
      simp [writesOf]
    rw [pollLoop]
    split_ifs
    · exact ⟨f1, f5, ft, fw⟩
    · exact ⟨f1, f5, ft, fw⟩
    · obtain ⟨a1, a2, a3, a4⟩ := ih (sleep env 10 w)
      exact ⟨by rw [a1, f1], by rw [a2, f5], by rw [a3, ft], by rw [a4, fw]⟩

/-! ## Reading one byte -/

theorem addr_hi_eq (a : Nat) : ((a >>> 8) &&& 0xFF) % 256 = a / 256 % 256 := by
  rw [Nat.shiftRight_eq_div_pow]
  have := Nat.and_pow_two_sub_one_eq_mod (a / 2 ^ 8) 8
  norm_num at this ⊢
  omega

theorem addr_lo_eq (a : Nat) : (a &&& 0xFF) % 256 = a % 256 := by
  have := Nat.and_pow_two_sub_one_eq_mod a 8
  norm_num at this ⊢
  omega

theorem addr_bytes (a : Nat) (ha : a < 65536) :
    a >>> 8 = a / 256 % 256 ∧ a &&& 0xFF = a % 256 ∧ (a >>> 8) * 256 + (a &&& 0xFF) = a := by
  have h1 : a >>> 8 = a / 256 := by
    rw [Nat.shiftRight_eq_div_pow]
  have h2 : a &&& 0xFF = a % 256 := by
    have := Nat.and_pow_two_sub_one_eq_mod a 8
    norm_num at this ⊢
    omega
  rw [h1, h2]
  omega

theorem portWrite_trace (env : Env) (b : Nat) (w : World) :
    (portWrite env b w).2.trace = w.trace ++ [Event.write b (env.writeOk w.trace b)] := rfl

theorem portWrite_ok (env : Env) (b : Nat) (w : World) :
    (portWrite env b w).1 = env.writeOk w.trace b := rfl

theorem portWrite_mcudump (env : Env) (b : Nat) (w : World) :
    (portWrite env b w).2.mcudump = w.mcudump := rfl

theorem portWrite_rxbuffer (env : Env) (b : Nat) (w : World) :
    (portWrite env b w).2.rxbuffer = w.rxbuffer := rfl

theorem portWrite_rxbuffercount (env : Env) (b : Nat) (w : World) :
    (portWrite env b w).2.rxbuffercount = w.rxbuffercount := rfl

theorem clearRx_trace (w : World) : (clearRx w).trace = w.trace ++ [Event.clear] := rfl

theorem clearRx_mcudump (w : World) : (clearRx w).mcudump = w.mcudump := by
  simp only [clearRx]

theorem clearRx_rxbuffer (w : World) : (clearRx w).rxbuffer = fillLoop 1024 0 w.rxbuffer := by
  simp only [clearRx]

theorem clearRx_rxbuffercount (w : World) : (clearRx w).rxbuffercount = 0 := by
  simp only [clearRx]

theorem clearRx_addr_hi (w : World) : (clearRx w).addr_hi = w.addr_hi := by
  simp only [clearRx]

theorem clearRx_addr_lo (w : World) : (clearRx w).addr_lo = w.addr_lo := by
  simp only [clearRx]

theorem latchAddress_trace (a : Nat) (w : World) :
    (latchAddress a w).trace = w.trace ++ [Event.read a] := rfl

theorem latchAddress_mcudump (a : Nat) (w : World) : (latchAddress a w).mcudump = w.mcudump := rfl

theorem latchAddress_rxbuffer (a : Nat) (w : World) :
    (latchAddress a w).rxbuffer = w.rxbuffer := rfl

theorem latchAddress_addr_hi (a : Nat) (w : World) :
    (latchAddress a w).addr_hi = a / 256 % 256 := by
  rw [← addr_hi_eq]
  rfl

theorem latchAddress_addr_lo (a : Nat) (w : World) : (latchAddress a w).addr_lo = a % 256 := by
  rw [← addr_lo_eq]
  rfl

theorem Buffered_congr (w1 w2 : World) (acc : List Nat) (h1 : w2.rxbuffer = w1.rxbuffer)
    (h2 : w2.rxbuffercount = w1.rxbuffercount) (h : Buffered w1 acc) : Buffered w2 acc := by
  unfold Buffered at h ⊢
  rw [h1, h2]
  exact h

theorem sleep_addr_lo (env : Env) (m : Nat) (w : World) :
    (sleep env m w).addr_lo = w.addr_lo := by
  rw [sleep_eq]

/-- The world in which the high address byte has been written. -/
theorem highWrite_trace (env : Env) (a : Nat) (w : World)
    (hw1 : env.writeOk (w.trace ++ [Event.read a, Event.clear]) (a / 256 % 256) = true) :
    (portWrite env (clearRx (latchAddress a w)).addr_hi (clearRx (latchAddress a w))).2.trace
      = historyHi w a := by
  rw [portWrite_trace, clearRx_trace, clearRx_addr_hi, latchAddress_trace, latchAddress_addr_hi]
  simp only [List.append_assoc, List.singleton_append, List.cons_append, List.nil_append,
    historyHi] at hw1 ⊢
  rw [hw1]

theorem highWrite_ok (env : Env) (a : Nat) (w : World) :
    (portWrite env (clearRx (latchAddress a w)).addr_hi (clearRx (latchAddress a w))).1
      = env.writeOk (w.trace ++ [Event.read a, Event.clear]) (a / 256 % 256) := by
  rw [portWrite_ok, clearRx_trace, clearRx_addr_hi, latchAddress_trace, latchAddress_addr_hi]
  simp only [List.append_assoc, List.singleton_append, List.cons_append, List.nil_append]

theorem afterAddress_eq (env : Env) (a : Nat) (w : World) :
    afterAddress env a w =
      (portWrite env (a % 256) (sleep env 1000 (portWrite env (clearRx (latchAddress a w)).addr_hi
        (clearRx (latchAddress a w))).2)).2 := by
  have e : (sleep env 1000 (portWrite env (clearRx (latchAddress a w)).addr_hi
      (clearRx (latchAddress a w))).2).addr_lo = a % 256 := by
    rw [sleep_addr_lo]
    exact latchAddress_addr_lo a w
  unfold afterAddress
  simp only []
  rw [e]

theorem afterAddress_trace (env : Env) (a : Nat) (w : World)
    (hw1 : env.writeOk (w.trace ++ [Event.read a, Event.clear]) (a / 256 % 256) = true)
    (hw2 : env.writeOk (historyHi w a ++ [Event.sleep 1000]) (a % 256) = true) :
    (afterAddress env a w).trace = historyLo w a := by
  rw [afterAddress_eq, portWrite_trace, sleep_trace, highWrite_trace env a w hw1, hw2, historyLo]
  simp only [List.append_assoc, List.singleton_append, List.cons_append, List.nil_append]

theorem afterAddress_ok (env : Env) (a : Nat) (w : World)
    (hw1 : env.writeOk (w.trace ++ [Event.read a, Event.clear]) (a / 256 % 256) = true) :
    (portWrite env (a % 256) (sleep env 1000 (portWrite env (clearRx (latchAddress a w)).addr_hi
        (clearRx (latchAddress a w))).2)).1
      = env.writeOk (historyHi w a ++ [Event.sleep 1000]) (a % 256) := by
  rw [portWrite_ok, sleep_trace, highWrite_trace env a w hw1]

theorem afterAddress_frame (env : Env) (a : Nat) (w : World) :
    (afterAddress env a w).mcudump = w.mcudump ∧
      (afterAddress env a w).rxbuffer.length = w.rxbuffer.length := by
  rw [afterAddress_eq, portWrite_mcudump, portWrite_rxbuffer, (sleep_frame _ _ _).1,
    (sleep_frame _ _ _).2.2.2.2, portWrite_mcudump, portWrite_rxbuffer, clearRx_mcudump,
    clearRx_rxbuffer, latchAddress_mcudump, latchAddress_rxbuffer, fillLoop_length]
  exact ⟨rfl, rfl⟩

theorem afterAddress_buffered (env : Env) (a : Nat) (w : World) (hlen : 0 < w.rxbuffer.length)
    (hw1 : env.writeOk (w.trace ++ [Event.read a, Event.clear]) (a / 256 % 256) = true) :
    Buffered (afterAddress env a w) (env.arrive (historyHi w a)) := by
  have hB := clearRx_buffered (latchAddress a w) (by rw [latchAddress_rxbuffer]; exact hlen)
  have hB1 := Buffered_congr _ (portWrite env (clearRx (latchAddress a w)).addr_hi
    (clearRx (latchAddress a w))).2 [] (portWrite_rxbuffer _ _ _) (portWrite_rxbuffercount _ _ _) hB
  have hB2 := sleep_buffered env 1000 _ [] hB1
  rw [List.nil_append, highWrite_trace env a w hw1] at hB2
  rw [afterAddress_eq]
  exact Buffered_congr _ _ _ (portWrite_rxbuffer _ _ _) (portWrite_rxbuffercount _ _ _) hB2

/-- With both address writes successful, a read is the polling loop run from
`afterAddress`, followed by the two tests of main.go 219-231. -/
theorem ReadByteFromMCU_ok (env : Env) (a d : Nat) (w : World)
    (hw1 : env.writeOk (w.trace ++ [Event.read a, Event.clear]) (a / 256 % 256) = true)
    (hw2 : env.writeOk (historyHi w a ++ [Event.sleep 1000]) (a % 256) = true) :
    ReadByteFromMCU env a d w =
      if (pollLoop env 500 (afterAddress env a w)).1 = 0 then
        (-1, d, (pollLoop env 500 (afterAddress env a w)).2)
      else if (pollLoop env 500 (afterAddress env a w)).2.rxbuffercount > 0 then
        (0, (pollLoop env 500 (afterAddress env a w)).2.rxbuffer.getD 0 0,
          (pollLoop env 500 (afterAddress env a w)).2)
      else (-1, d, (pollLoop env 500 (afterAddress env a w)).2) := by
  have e : (sleep env 1000 (portWrite env (clearRx (latchAddress a w)).addr_hi
      (clearRx (latchAddress a w))).2).addr_lo = a % 256 := by
    rw [sleep_addr_lo]
    exact latchAddress_addr_lo a w
  unfold ReadByteFromMCU
  simp only []
  rw [highWrite_ok, hw1, e, afterAddress_ok env a w hw1, hw2, ← afterAddress_eq]
  simp only [Bool.true_eq_false, if_false]

/-- The outcome of a read whose two address writes succeeded, in terms of what
the transport delivers. -/
theorem ReadByteFromMCU_poll (env : Env) (address data : Nat) (w : World)
    (hlen : w.rxbuffer.length = 1024)
    (hw1 : env.writeOk (w.trace ++ [Event.read address, Event.clear]) (address / 256 % 256) = true)
    (hw2 : env.writeOk (historyHi w address ++ [Event.sleep 1000]) (address % 256) = true) :
    (∃ p, 1 ≤ p ∧ p ≤ 500 ∧ (ReadByteFromMCU env address data w).2.2.trace =
        historyLo w address ++ List.replicate p (Event.sleep 10)) ∧
    (∀ k, k < 500 → bufferedAtPoll env w address k ≠ [] →
      (ReadByteFromMCU env address data w).1 = 0 ∧
      some (ReadByteFromMCU env address data w).2.1 = (bufferedAtPoll env w address k).head? ∧
      (ReadByteFromMCU env address data w).2.1 =
        (ReadByteFromMCU env address data w).2.2.rxbuffer.getD 0 0) ∧
    ((∀ k, k < 500 → bufferedAtPoll env w address k = []) →
      (ReadByteFromMCU env address data w).1 = -1 ∧
      (ReadByteFromMCU env address data w).2.1 = data) := by
  have hB := afterAddress_buffered env address w (by omega) hw1
  obtain ⟨⟨p, p1, p2, p3⟩, q2, q3⟩ := pollLoop_spec env 499 (afterAddress env address w) _ hB
  rw [afterAddress_trace env address w hw1 hw2] at p3 q2 q3
  rw [ReadByteFromMCU_ok env address data w hw1 hw2]
  refine ⟨⟨p, p1, p2, ?_⟩, ?_, ?_⟩
  · split_ifs <;> exact p3
  · intro k hk hne
    obtain ⟨a1, a2, a3⟩ := q2 k (by omega) hne
    rw [if_neg a1, if_pos a2]
    refine ⟨rfl, ?_, rfl⟩
    show some (List.getD _ 0 0) = _
    rw [List.getD_eq_getElem?_getD, a3]
    cases hh : bufferedAtPoll env w address k with
    | nil => exact absurd hh hne
    | cons b rest =>
      show some ((arrivedBy env (historyLo w address) (env.arrive (historyHi w address)) k).head?.getD 0) = _
      change bufferedAtPoll env w address k = b :: rest at hh
      unfold bufferedAtPoll at hh
      rw [hh]
      rfl
  · intro hall
    have h0 := q3 (fun k hk => hall k (by omega))
    rw [if_pos h0]
    exact ⟨rfl, rfl⟩

/-- C7: after the address has been sent, `ReadByteFromMCU` polls between 1 and
500 times; if a byte is in the receive buffer at one of the 500 polls it
returns 0 and the result is the first buffered byte, `rxbuffer[0]`; if the
buffer is empty at all 500 polls it returns -1 and leaves the result alone. -/
theorem ReadByteFromMCU_result (env : Env) (address data : Nat) (w : World)
    (hlen : w.rxbuffer.length = 1024)
    (hw1 : env.writeOk (w.trace ++ [Event.read address, Event.clear]) (address / 256 % 256) = true)
    (hw2 : env.writeOk (historyHi w address ++ [Event.sleep 1000]) (address % 256) = true) :
    (∃ p, 1 ≤ p ∧ p ≤ 500 ∧ (ReadByteFromMCU env address data w).2.2.trace =
        historyLo w address ++ List.replicate p (Event.sleep 10)) ∧
    (∀ k, k < 500 → bufferedAtPoll env w address k ≠ [] →
      (ReadByteFromMCU env address data w).1 = 0 ∧
      some (ReadByteFromMCU env address data w).2.1 = (bufferedAtPoll env w address k).head? ∧
      (ReadByteFromMCU env address data w).2.1 =
        (ReadByteFromMCU env address data w).2.2.rxbuffer.getD 0 0) ∧
    ((∀ k, k < 500 → bufferedAtPoll env w address k = []) →
      (ReadByteFromMCU env address data w).1 = -1 ∧
      (ReadByteFromMCU env address data w).2.1 = data) :=
  ReadByteFromMCU_poll env address data w hlen hw1 hw2

/-- Witness for `ReadByteFromMCU_result`: a transport that deposits 0x42 before
the first poll makes the read at 0x1000 return 0 with result 0x42. -/
theorem ReadByteFromMCU_result_witness :
    (ReadByteFromMCU (depositEnv 0x42) 0x1000 0 World0).1 = 0 ∧
    some (ReadByteFromMCU (depositEnv 0x42) 0x1000 0 World0).2.1 = some 0x42 := by
  obtain ⟨_, h, _⟩ := ReadByteFromMCU_result (depositEnv 0x42) 0x1000 0 World0
    (List.length_replicate _ _) rfl rfl
  obtain ⟨h1, h2, _⟩ := h 0 (by decide) (by decide)
  exact ⟨h1, h2⟩

theorem writesOf_append (t1 t2 : List Event) : writesOf (t1 ++ t2) = writesOf t1 ++ writesOf t2 :=
  List.filterMap_append _ _ _

theorem readsOf_append (t1 t2 : List Event) : readsOf (t1 ++ t2) = readsOf t1 ++ readsOf t2 :=
  List.filterMap_append _ _ _

theorem clearRx_latch_eq (a : Nat) (w1 w2 : World) (h1 : w1.rxbuffer.length = 1024)
    (h2 : w2.rxbuffer.length = 1024) (hR : w1.RAM = w2.RAM)
    (hS : w1.RAM_SIZE_LOADED = w2.RAM_SIZE_LOADED)
    (hP : w1.RAM_PROGRAM_START = w2.RAM_PROGRAM_START) (hl : w1.length = w2.length)
    (hs : w1.selector = w2.selector) (hm : w1.mcudump = w2.mcudump) (ht : w1.trace = w2.trace) :
    clearRx (latchAddress a w1) = clearRx (latchAddress a w2) := by
  simp only [clearRx, latchAddress, World.mk.injEq]
  rw [fillLoop_eq_replicate 1024 0 _ h1, fillLoop_eq_replicate 1024 0 _ h2, hR, hS, hP, hl, hs,
    hm, ht]
  simp only [and_self]

/-- C8: `ReadByteFromMCU` first clears the receive buffer (count 0, all 1024
slots 0), so that nothing buffered before the call influences it, and then,
when the two writes succeed, transmits exactly two bytes: `address >> 8`
followed by `address & 0xFF`, which together are the 16-bit address. -/
theorem ReadByteFromMCU_framing (env : Env) (address data : Nat) (w : World)
    (ha : address < 65536) (hlen : w.rxbuffer.length = 1024)
    (hw1 : env.writeOk (w.trace ++ [Event.read address, Event.clear]) (address >>> 8) = true)
    (hw2 : env.writeOk (w.trace ++ [Event.read address, Event.clear,
      Event.write (address >>> 8) true, Event.sleep 1000]) (address &&& 0xFF) = true) :
    (clearRx (latchAddress address w)).rxbuffercount = 0 ∧
    (clearRx (latchAddress address w)).rxbuffer = List.replicate 1024 0 ∧
    ReadByteFromMCU env address data w = ReadByteFromMCU env address data
      { w with rxbuffer := List.replicate 1024 0, rxbuffercount := 0 } ∧
    (∃ p, (ReadByteFromMCU env address data w).2.2.trace =
      w.trace ++ [Event.read address, Event.clear, Event.write (address >>> 8) true,
        Event.sleep 1000, Event.write (address &&& 0xFF) true] ++
        List.replicate p (Event.sleep 10)) ∧
    writesOf (ReadByteFromMCU env address data w).2.2.trace =
      writesOf w.trace ++ [(address >>> 8, true), (address &&& 0xFF, true)] ∧
    (address >>> 8) * 256 + (address &&& 0xFF) = address := by
  obtain ⟨b1, b2, _⟩ := addr_bytes address ha
  simp only [b1, b2] at hw1 hw2 ⊢
  have hw2' : env.writeOk (historyHi w address ++ [Event.sleep 1000]) (address % 256) = true := by
    simp only [historyHi, List.append_assoc, List.cons_append, List.nil_append]
    exact hw2
  have hB := afterAddress_buffered env address w (by omega) hw1
  obtain ⟨⟨p, _, _, p3⟩, _, _⟩ := pollLoop_spec env 499 (afterAddress env address w) _ hB
  have hwr := (pollLoop_frame env 500 (afterAddress env address w)).2.2.2
  rw [afterAddress_trace env address w hw1 hw2'] at p3 hwr
  have hres : (ReadByteFromMCU env address data w).2.2 =
      (pollLoop env 500 (afterAddress env address w)).2 := by
    rw [ReadByteFromMCU_ok env address data w hw1 hw2']
    split_ifs <;> rfl
  refine ⟨clearRx_rxbuffercount _, ?_, ?_, ⟨p, ?_⟩, ?_, ?_⟩
  · rw [clearRx_rxbuffer, latchAddress_rxbuffer]
    exact fillLoop_eq_replicate 1024 0 _ hlen
  · have hc := clearRx_latch_eq address w
      { w with rxbuffer := List.replicate 1024 0, rxbuffercount := 0 }
      hlen (List.length_replicate _ _) rfl rfl rfl rfl rfl rfl rfl
    unfold ReadByteFromMCU
    rw [hc]
  · rw [hres, p3]
    simp only [historyLo, historyHi, List.append_assoc, List.cons_append, List.nil_append]
  · rw [hres, hwr]
    simp only [historyLo, historyHi, writesOf_append]
    simp [writesOf]
  · omega

/-- Witness for `ReadByteFromMCU_framing`: the read at 0x1234 on a silent link
sends 0x12 and then 0x34. -/
theorem ReadByteFromMCU_framing_witness :
    writesOf (ReadByteFromMCU silentEnv 0x1234 0 World0).2.2.trace
      = [(0x12, true), (0x34, true)] := by
  obtain ⟨_, _, _, _, h, _⟩ := ReadByteFromMCU_framing silentEnv 0x1234 0 World0 (by decide)
    (List.length_replicate _ _) rfl rfl
  exact h

/-! ## The applet upload -/

theorem sleep_writesOf (env : Env) (m : Nat) (w : World) :
    writesOf (sleep env m w).trace = writesOf w.trace := by
  rw [sleep_trace, writesOf_append]
  simp [writesOf]

theorem portWrite_writesOf (env : Env) (b : Nat) (w : World) :
    writesOf (portWrite env b w).2.trace = writesOf w.trace ++ [(b, env.writeOk w.trace b)] := by
  rw [portWrite_trace, writesOf_append]
  simp [writesOf]

/-- The streaming loop on a link whose writes all succeed, run where
`selector` stays inside `RAM`: it sends the next `k` image bytes in order. -/
theorem uploadLoop_spec (env : Env) (hok : ∀ h b, env.writeOk h b = true) :
    ∀ (k : Nat) (w : World), w.selector + k ≤ w.RAM.length →
      ∃ w1, uploadLoop env k w = some w1 ∧
        writesOf w1.trace =
          writesOf w.trace ++ ((w.RAM.drop w.selector).take k).map (fun b => (b, true)) := by
  intro k
  induction k with
  | zero =>
    intro w _
    exact ⟨w, rfl, by simp⟩
  | succ k ih =>
    intro w hfit
    have hsel : w.selector < w.RAM.length := by omega
    have hR : (sleep env 5000 w).RAM = w.RAM := (sleep_frame env 5000 w).2.1
    have hs : (sleep env 5000 w).selector = w.selector := (sleep_frame env 5000 w).2.2.1
    obtain ⟨w1, r1, r2⟩ := ih
      { (portWrite env w.RAM[w.selector] (sleep env 5000 w)).2 with
        selector := (portWrite env w.RAM[w.selector] (sleep env 5000 w)).2.selector + 1 }
      (by
        show (sleep env 5000 w).selector + 1 + k ≤ (sleep env 5000 w).RAM.length
        rw [hR, hs]
        omega)
    refine ⟨w1, ?_, ?_⟩
    · rw [uploadLoop, List.getElem?_eq_getElem hsel]
      exact r1
    · rw [r2]
      have e1 : writesOf ({ (portWrite env w.RAM[w.selector] (sleep env 5000 w)).2 with
          selector := (portWrite env w.RAM[w.selector] (sleep env 5000 w)).2.selector + 1 }).trace
          = writesOf w.trace ++ [(w.RAM[w.selector], true)] := by
        show writesOf (portWrite env w.RAM[w.selector] (sleep env 5000 w)).2.trace = _
        rw [portWrite_writesOf, sleep_writesOf, hok]
      have e2 : ({ (portWrite env w.RAM[w.selector] (sleep env 5000 w)).2 with
          selector := (portWrite env w.RAM[w.selector] (sleep env 5000 w)).2.selector + 1 }).RAM
          = w.RAM := hR
      have e3 : ({ (portWrite env w.RAM[w.selector] (sleep env 5000 w)).2 with
          selector := (portWrite env w.RAM[w.selector] (sleep env 5000 w)).2.selector + 1 }).selector
          = w.selector + 1 := by
        show (sleep env 5000 w).selector + 1 = _
        rw [hs]
      rw [e1, e2, e3, List.drop_eq_getElem_cons hsel, List.take_succ_cons, List.map_cons,
        List.append_assoc]
      rfl

/-- The upload on a link whose writes all succeed: the length indicator
`(N+1) mod 256`, then `N mod 256` image bytes from offset `S-0x50` (16-bit). -/
theorem upload_spec (env : Env) (hok : ∀ h b, env.writeOk h b = true) (anykey : Nat) (w : World)
    (hkey : 0 < anykey)
    (hfit : subU16 w.RAM_PROGRAM_START 0x50 + w.RAM_SIZE_LOADED % 256 ≤ w.RAM.length) :
    ∃ w1, upload env anykey w = some w1 ∧
      writesOf w1.trace = writesOf w.trace ++
        (((w.RAM_SIZE_LOADED + 1) % 256, true) ::
          ((w.RAM.drop (subU16 w.RAM_PROGRAM_START 0x50)).take (w.RAM_SIZE_LOADED % 256)).map
            (fun b => (b, true))) := by
  have hcount : subByte ((w.RAM_SIZE_LOADED % 256 + 1) % 256) 1 = w.RAM_SIZE_LOADED % 256 := by
    unfold subByte
    omega
  obtain ⟨w1, r1, r2⟩ := uploadLoop_spec env hok (w.RAM_SIZE_LOADED % 256)
    (portWrite env ((w.RAM_SIZE_LOADED % 256 + 1) % 256)
      { w with length := (w.RAM_SIZE_LOADED % 256 + 1) % 256,
               selector := subU16 w.RAM_PROGRAM_START 0x50 }).2 hfit
  refine ⟨w1, ?_, ?_⟩
  · unfold upload
    rw [if_pos hkey]
    simp only []
    rw [portWrite_ok, hok, if_pos rfl]
    show uploadLoop env (subByte ((w.RAM_SIZE_LOADED % 256 + 1) % 256) 1) _ = _
    rw [hcount]
    exact r1
  · rw [r2, portWrite_writesOf, hok, List.append_assoc]
    have e : (w.RAM_SIZE_LOADED % 256 + 1) % 256 = (w.RAM_SIZE_LOADED + 1) % 256 := by omega
    rw [e]
    rfl

set_option maxRecDepth 1000000 in
/-- C6 (as stated) fails: a file with the same 128-byte S1 record twice loads
with byte count 256 and start 0x0050, and the upload of an image with loaded
length 256 transmits the single byte 1, not 257 bytes led by 257. -/
theorem upload_length_truncated :
    (LoadSrec (some [encodeRecord 0x50 (List.replicate 128 0xAA),
        encodeRecord 0x50 (List.replicate 128 0xAA)]) RAM_0050 ⟨RAM0, 0, 0⟩).map
      (fun r => (r.1, r.2.objectlength, r.2.RAM_PROGRAM_START)) = some (0, 256, 0x50) ∧
    (upload silentEnv 1 { World0 with RAM_SIZE_LOADED := 256, RAM_PROGRAM_START := 0x50 }).map
      (fun w => writesOf w.trace) = some [(1, true)] := by
  constructor
  · decide
  · decide

/-- C6 (amended): for an image whose loaded region lies inside the 176-byte RAM
image (start `S ≥ 0x50`, `(S-0x50)+N ≤ 176`, so `N ≤ 176`), when the operator
has signalled ready and all transport writes succeed, the uploader transmits
exactly `N+1` bytes: the length indicator `N+1`, then the `N` image bytes at
offsets `S-0x50`, `S-0x50+1`, ..., in that order. -/
theorem upload_transmits (env : Env) (anykey : Nat) (w : World)
    (hok : ∀ h b, env.writeOk h b = true) (hkey : 0 < anykey) (hRAM : w.RAM.length = 176)
    (hS : 0x50 ≤ w.RAM_PROGRAM_START)
    (hfit : (w.RAM_PROGRAM_START - 0x50) + w.RAM_SIZE_LOADED ≤ 176) :
    ∃ w1, upload env anykey w = some w1 ∧
      writesOf w1.trace = writesOf w.trace ++
        ((w.RAM_SIZE_LOADED + 1, true) ::
          ((w.RAM.drop (w.RAM_PROGRAM_START - 0x50)).take w.RAM_SIZE_LOADED).map
            (fun b => (b, true))) ∧
      ((w.RAM.drop (w.RAM_PROGRAM_START - 0x50)).take w.RAM_SIZE_LOADED).length
        = w.RAM_SIZE_LOADED := by
  have hsub : subU16 w.RAM_PROGRAM_START 0x50 = w.RAM_PROGRAM_START - 0x50 := by
    unfold subU16
    omega
  have hN : w.RAM_SIZE_LOADED % 256 = w.RAM_SIZE_LOADED := by omega
  have hN1 : (w.RAM_SIZE_LOADED + 1) % 256 = w.RAM_SIZE_LOADED + 1 := by omega
  obtain ⟨w1, r1, r2⟩ := upload_spec env hok anykey w hkey (by rw [hsub, hN, hRAM]; exact hfit)
  rw [hsub, hN, hN1] at r2
  refine ⟨w1, r1, r2, ?_⟩
  rw [List.length_take, List.length_drop, hRAM]
  omega

set_option maxRecDepth 100000 in
/-- Witness for `upload_transmits`: three loaded bytes from start 0x0052. -/
theorem upload_transmits_witness :
    (upload silentEnv 1
      { World0 with RAM_SIZE_LOADED := 3, RAM_PROGRAM_START := 0x52, RAM := List.range 176 }).map
      (fun w => writesOf w.trace) = some [(4, true), (2, true), (3, true), (4, true)] := by
  obtain ⟨w1, h, h2, _⟩ := upload_transmits silentEnv 1
    { World0 with RAM_SIZE_LOADED := 3, RAM_PROGRAM_START := 0x52, RAM := List.range 176 }
    (fun _ _ => rfl) (by decide) (List.length_range 176) (by decide) (by decide)
  rw [h, Option.map_some', h2]
  decide

/-! ## Saturation of the receive buffer -/

theorem SerialRx_append (l1 l2 : List Nat) (w : World) :
    SerialRx (l1 ++ l2) w = SerialRx l2 (SerialRx l1 w) :=
  List.foldl_append _ _ _ _

theorem rxStore_rxbuffercount (b : Nat) (w : World) :
    (rxStore b w).rxbuffercount = if w.rxbuffercount + 1 > 1023 then 1023 else w.rxbuffercount + 1 :=
  rfl

theorem rxStore_rxbuffer (b : Nat) (w : World) :
    (rxStore b w).rxbuffer = w.rxbuffer.set w.rxbuffercount b := rfl

/-- Below saturation every received byte is counted. -/
theorem SerialRx_count (bytes : List Nat) :
    ∀ w : World, w.rxbuffercount + bytes.length ≤ 1023 →
      (SerialRx bytes w).rxbuffercount = w.rxbuffercount + bytes.length := by
  induction bytes with
  | nil =>
    intro w _
    rfl
  | cons b bytes ih =>
    intro w h
    rw [List.length_cons] at h
    have e : (rxStore b w).rxbuffercount = w.rxbuffercount + 1 := by
      rw [rxStore_rxbuffercount, if_neg (by omega)]
    have := ih (rxStore b w) (by rw [e]; omega)
    rw [show SerialRx (b :: bytes) w = SerialRx bytes (rxStore b w) from rfl, this, e,
      List.length_cons]
    omega

/-- The count never exceeds the count before plus the number of bytes received. -/
theorem SerialRx_count_le (bytes : List Nat) :
    ∀ w : World, (SerialRx bytes w).rxbuffercount ≤ w.rxbuffercount + bytes.length := by
  induction bytes with
  | nil =>
    intro w
    exact Nat.le_refl _
  | cons b bytes ih =>
    intro w
    have e : (rxStore b w).rxbuffercount ≤ w.rxbuffercount + 1 := by
      rw [rxStore_rxbuffercount]
      split_ifs <;> omega
    have := ih (rxStore b w)
    rw [show SerialRx (b :: bytes) w = SerialRx bytes (rxStore b w) from rfl, List.length_cons]
    omega

/-- At `rxbuffercount = 1023` a received byte is stored in slot 1023 and the
count stays 1023. -/
theorem rxStore_saturated (b : Nat) (w : World) (hc : w.rxbuffercount = 1023)
    (hlen : w.rxbuffer.length = 1024) :
    (rxStore b w).rxbuffercount = 1023 ∧ (rxStore b w).rxbuffer[1023]? = some b ∧
      (rxStore b w).rxbuffer.length = 1024 := by
  rw [rxStore_rxbuffercount, rxStore_rxbuffer, hc, List.length_set]
  exact ⟨rfl, List.getElem?_set_self (by omega), hlen⟩

/-- C10 (code at the failing input): after a clear and 1024 received bytes of
value 1 the count is 1023 and slot 1023 holds 1; the next received byte, 2,
leaves the count at 1023 and overwrites slot 1023 with 2. -/
theorem SerialRx_overwrites_last_slot :
    ((SerialRx (List.replicate 1024 1) (clearRx World0)).rxbuffercount,
      (SerialRx (List.replicate 1024 1) (clearRx World0)).rxbuffer[1023]?) = (1023, some 1) ∧
    ((rxStore 2 (SerialRx (List.replicate 1024 1) (clearRx World0))).rxbuffercount,
      (rxStore 2 (SerialRx (List.replicate 1024 1) (clearRx World0))).rxbuffer[1023]?)
      = (1023, some 2) := by
  have hsplit : List.replicate 1024 1 = List.replicate 1023 1 ++ [1] :=
    List.replicate_succ' 1023 1
  have hlen0 : (clearRx World0).rxbuffer.length = 1024 := by
    rw [clearRx_rxbuffer, fillLoop_length]
    exact List.length_replicate _ _
  have hc : (SerialRx (List.replicate 1023 1) (clearRx World0)).rxbuffercount = 1023 := by
    rw [SerialRx_count _ _ (by rw [clearRx_rxbuffercount, List.length_replicate]),
      clearRx_rxbuffercount, List.length_replicate]
  have hl : (SerialRx (List.replicate 1023 1) (clearRx World0)).rxbuffer.length = 1024 := by
    rw [(SerialRx_frame _ _).2.2.2.2.2, hlen0]
  have e : SerialRx (List.replicate 1024 1) (clearRx World0)
      = rxStore 1 (SerialRx (List.replicate 1023 1) (clearRx World0)) := by
    rw [hsplit, SerialRx_append]
    rfl
  obtain ⟨a1, a2, a3⟩ := rxStore_saturated 1 _ hc hl
  obtain ⟨b1, b2, _⟩ := rxStore_saturated 2 _ a1 a3
  rw [e, a1, a2, b1, b2]
  exact ⟨rfl, rfl⟩

/-! ## The full-space dump -/

/-- What a read leaves alone, on any transport. -/
theorem ReadByteFromMCU_frame (env : Env) (a d : Nat) (w : World) :
    (ReadByteFromMCU env a d w).2.2.mcudump = w.mcudump ∧
    (ReadByteFromMCU env a d w).2.2.rxbuffer.length = w.rxbuffer.length ∧
    readsOf (ReadByteFromMCU env a d w).2.2.trace = readsOf w.trace ++ [a] ∧
    ((ReadByteFromMCU env a d w).1 ≠ 0 → (ReadByteFromMCU env a d w).2.1 = d) := by
  have c1 : (clearRx (latchAddress a w)).mcudump = w.mcudump := by
    rw [clearRx_mcudump, latchAddress_mcudump]
  have c2 : (clearRx (latchAddress a w)).rxbuffer.length = w.rxbuffer.length := by
    rw [clearRx_rxbuffer, fillLoop_length, latchAddress_rxbuffer]
  have c3 : readsOf (clearRx (latchAddress a w)).trace = readsOf w.trace ++ [a] := by
    rw [clearRx_trace, latchAddress_trace, readsOf_append, readsOf_append]
    simp [readsOf]
  have w1 : ∀ (b : Nat) (v : World), readsOf (portWrite env b v).2.trace = readsOf v.trace := by
    intro b v
    rw [portWrite_trace, readsOf_append]
    simp [readsOf]
  have s1 : ∀ v : World, readsOf (sleep env 1000 v).trace = readsOf v.trace := by
    intro v
    rw [sleep_trace, readsOf_append]
    simp [readsOf]
  unfold ReadByteFromMCU
  simp only []
  split_ifs
  · refine ⟨?_, ?_, ?_, fun _ => rfl⟩
    · rw [portWrite_mcudump, c1]
    · rw [portWrite_rxbuffer, c2]
    · rw [w1, c3]
  · refine ⟨?_, ?_, ?_, fun _ => rfl⟩
    · rw [portWrite_mcudump, (sleep_frame _ _ _).1, portWrite_mcudump, c1]
    · rw [portWrite_rxbuffer, (sleep_frame _ _ _).2.2.2.2, portWrite_rxbuffer, c2]
    · rw [w1, s1, w1, c3]
  · refine ⟨?_, ?_, ?_, fun _ => rfl⟩
    · rw [(pollLoop_frame _ _ _).1, portWrite_mcudump, (sleep_frame _ _ _).1, portWrite_mcudump, c1]
    · rw [(pollLoop_frame _ _ _).2.1, portWrite_rxbuffer, (sleep_frame _ _ _).2.2.2.2,
        portWrite_rxbuffer, c2]
    · rw [(pollLoop_frame _ _ _).2.2.1, w1, s1, w1, c3]
  · refine ⟨?_, ?_, ?_, fun h => absurd rfl h⟩
    · rw [(pollLoop_frame _ _ _).1, portWrite_mcudump, (sleep_frame _ _ _).1, portWrite_mcudump, c1]
    · rw [(pollLoop_frame _ _ _).2.1, portWrite_rxbuffer, (sleep_frame _ _ _).2.2.2.2,
        portWrite_rxbuffer, c2]
    · rw [(pollLoop_frame _ _ _).2.2.1, w1, s1, w1, c3]
  · refine ⟨?_, ?_, ?_, fun _ => rfl⟩
    · rw [(pollLoop_frame _ _ _).1, portWrite_mcudump, (sleep_frame _ _ _).1, portWrite_mcudump, c1]
    · rw [(pollLoop_frame _ _ _).2.1, portWrite_rxbuffer, (sleep_frame _ _ _).2.2.2.2,
        portWrite_rxbuffer, c2]
    · rw [(pollLoop_frame _ _ _).2.2.1, w1, s1, w1, c3]

theorem sweepStep_mcudump (env : Env) (a : Nat) (w : World) :
    (sweepStep env a w).mcudump =
      w.mcudump.set a (ReadByteFromMCU env a (w.mcudump.getD a 0) w).2.1 := by
  unfold sweepStep
  simp only []
  rw [(ReadByteFromMCU_frame env a _ w).1]

theorem sweepStep_rxbuffer (env : Env) (a : Nat) (w : World) :
    (sweepStep env a w).rxbuffer.length = w.rxbuffer.length := by
  unfold sweepStep
  simp only []
  rw [(ReadByteFromMCU_frame env a _ w).2.1]

theorem sweepStep_reads (env : Env) (a : Nat) (w : World) :
    readsOf (sweepStep env a w).trace = readsOf w.trace ++ [a] := by
  unfold sweepStep
  simp only []
  rw [(ReadByteFromMCU_frame env a _ w).2.2.1]

/-- The sweep loop started at `m` reads `m, m+1, ..., 8191` in this order and stops. -/
theorem sweepLoop_eq (env : Env) :
    ∀ (n m : Nat) (w : World), m + n = 8191 →
      sweepLoop env m w = (List.range' m (n + 1)).foldl (fun w a => sweepStep env a w) w := by
  intro n
  induction n with
  | zero =>
    intro m w h
    have hm : m = 8191 := by omega
    subst hm
    rw [sweepLoop, if_pos (by decide), Nat.zero_add, List.range'_one]
    rfl
  | succ n ih =>
    intro m w h
    rw [sweepLoop]
    have e : (m + 1) % 65536 = m + 1 := by omega
    rw [e, if_neg (by omega), ih (m + 1) _ (by omega), List.range'_succ m (n + 1) 1]
    rfl

theorem sweepPrefix_succ (env : Env) (w : World) (n : Nat) :
    sweepPrefix env w (n + 1) = sweepStep env n (sweepPrefix env w n) := by
  unfold sweepPrefix
  rw [List.range_succ, List.foldl_append]
  rfl

/-- The invariants of the sweep: buffer sizes, the reads issued, the slots not
yet reached, and the slots already written. -/
theorem sweepPrefix_spec (env : Env) (w : World) :
    ∀ n : Nat, (sweepPrefix env w n).mcudump.length = w.mcudump.length ∧
      (sweepPrefix env w n).rxbuffer.length = w.rxbuffer.length ∧
      readsOf (sweepPrefix env w n).trace = readsOf w.trace ++ List.range n ∧
      (∀ j, n ≤ j → (sweepPrefix env w n).mcudump[j]? = w.mcudump[j]?) ∧
      (∀ j, j < n → j < w.mcudump.length → (sweepPrefix env w n).mcudump[j]? =
        some (ReadByteFromMCU env j (w.mcudump.getD j 0) (sweepPrefix env w j)).2.1) := by
  intro n
  induction n with
  | zero =>
    refine ⟨rfl, rfl, ?_, fun _ _ => rfl, ?_⟩
    · rw [List.range_zero, List.append_nil]
      rfl
    · intro j hj
      omega
  | succ n ih =>
    obtain ⟨a1, a2, a3, a4, a5⟩ := ih
    rw [sweepPrefix_succ]
    refine ⟨?_, ?_, ?_, ?_, ?_⟩
    · rw [sweepStep_mcudump, List.length_set, a1]
    · rw [sweepStep_rxbuffer, a2]
    · rw [sweepStep_reads, a3, List.range_succ, List.append_assoc]
    · intro j hj
      rw [sweepStep_mcudump, List.getElem?_set_ne (by omega), a4 j (by omega)]
    · intro j hj hjl
      rw [sweepStep_mcudump]
      by_cases hjn : j = n
      · subst hjn
        rw [List.getElem?_set_self (by rw [a1]; exact hjl), List.getD_eq_getElem?_getD,
          a4 j (le_refl _), ← List.getD_eq_getElem?_getD]
      · rw [List.getElem?_set_ne (fun e => hjn e.symm), a5 j (by omega) hjl]

theorem arrivedBy_nil (env : Env) (hnone : ∀ h, env.arrive h = []) :
    ∀ (k : Nat) (h : List Event), arrivedBy env h [] k = [] := by
  intro k
  induction k with
  | zero =>
    intro h
    rw [arrivedBy, hnone]
    rfl
  | succ k ih =>
    intro h
    rw [arrivedBy, hnone]
    exact ih _

/-- On a transport that never delivers a byte, a read leaves its result alone. -/
theorem ReadByteFromMCU_silent (env : Env) (hnone : ∀ h, env.arrive h = []) (a d : Nat)
    (w : World) (hlen : w.rxbuffer.length = 1024) : (ReadByteFromMCU env a d w).2.1 = d := by
  apply (ReadByteFromMCU_frame env a d w).2.2.2
  cases hw1 : env.writeOk (w.trace ++ [Event.read a, Event.clear]) (a / 256 % 256) with
  | false =>
    unfold ReadByteFromMCU
    simp only []
    rw [highWrite_ok, hw1, if_pos rfl]
    exact (by decide : (-1 : Int) ≠ 0)
  | true =>
    cases hw2 : env.writeOk (historyHi w a ++ [Event.sleep 1000]) (a % 256) with
    | false =>
      have e : (sleep env 1000 (portWrite env (clearRx (latchAddress a w)).addr_hi
          (clearRx (latchAddress a w))).2).addr_lo = a % 256 := by
        rw [sleep_addr_lo]
        exact latchAddress_addr_lo a w
      unfold ReadByteFromMCU
      simp only []
      rw [highWrite_ok, hw1, e, afterAddress_ok env a w hw1, hw2, if_neg (by decide), if_pos rfl]
      exact (by decide : (-1 : Int) ≠ 0)
    | true =>
      have h := (ReadByteFromMCU_poll env a d w hlen hw1 hw2).2.2 (fun k _ => by
        unfold bufferedAtPoll
        rw [hnone]
        exact arrivedBy_nil env hnone k _)
      rw [h.1]
      decide

/-- On a transport whose writes succeed and that has the byte `v` first in the
receive buffer at one of the 500 polls, a read returns `v`. -/
theorem ReadByteFromMCU_answer (env : Env) (hok : ∀ h b, env.writeOk h b = true) (a d v : Nat)
    (w : World) (hlen : w.rxbuffer.length = 1024)
    (hans : ∃ k, k < 500 ∧ (bufferedAtPoll env w a k).head? = some v) :
    (ReadByteFromMCU env a d w).2.1 = v := by
  obtain ⟨k, hk, hv⟩ := hans
  have hne : bufferedAtPoll env w a k ≠ [] := by
    intro e
    rw [e] at hv
    cases hv
  have h := (ReadByteFromMCU_poll env a d w hlen (hok _ _) (hok _ _)).2.1 k hk hne
  rw [hv] at h
  exact Option.some.inj h.2.1

theorem dumpSweep_eq (env : Env) (w : World) :
    dumpSweep env w = sweepPrefix env (dumpStart env w) 8192 := by
  unfold dumpSweep dumpStart sweepPrefix
  simp only []
  rw [sweepLoop_eq env 8191 0 _ rfl, List.range_eq_range']

theorem setMcudump_fields (m : List Nat) (w : World) :
    ({ w with mcudump := m }).mcudump = m ∧ ({ w with mcudump := m }).rxbuffer = w.rxbuffer ∧
      ({ w with mcudump := m }).trace = w.trace :=
  ⟨rfl, rfl, rfl⟩

theorem prefill_mcudump (w : World) : (prefill w).mcudump = fillLoop 8192 0xFF w.mcudump :=
  (setMcudump_fields (fillLoop 8192 0xFF w.mcudump) w).1

theorem prefill_rxbuffer (w : World) : (prefill w).rxbuffer = w.rxbuffer :=
  (setMcudump_fields (fillLoop 8192 0xFF w.mcudump) w).2.1

theorem prefill_trace (w : World) : (prefill w).trace = w.trace :=
  (setMcudump_fields (fillLoop 8192 0xFF w.mcudump) w).2.2

theorem dumpStart_spec (env : Env) (w : World) (hdump : w.mcudump.length = 8192) :
    (dumpStart env w).mcudump = List.replicate 8192 0xFF ∧
      (dumpStart env w).rxbuffer.length = w.rxbuffer.length ∧
      readsOf (dumpStart env w).trace = readsOf w.trace ++ [0x1FDF, 0x1FF0, 0x1FF1] := by
  unfold dumpStart diagReads
  simp only []
  refine ⟨?_, ?_, ?_⟩
  · rw [(ReadByteFromMCU_frame _ _ _ _).1, (ReadByteFromMCU_frame _ _ _ _).1,
      (ReadByteFromMCU_frame _ _ _ _).1, prefill_mcudump]
    exact fillLoop_eq_replicate 8192 0xFF _ hdump
  · rw [(ReadByteFromMCU_frame _ _ _ _).2.1, (ReadByteFromMCU_frame _ _ _ _).2.1,
      (ReadByteFromMCU_frame _ _ _ _).2.1, prefill_rxbuffer]
  · rw [(ReadByteFromMCU_frame _ _ _ _).2.2.1, (ReadByteFromMCU_frame _ _ _ _).2.2.1,
      (ReadByteFromMCU_frame _ _ _ _).2.2.1, prefill_trace]
    simp only [List.append_assoc, List.singleton_append, List.cons_append, List.nil_append]

/-- The snapshot slot `n` after the dump is what the read at `n` left behind
the pointer `&mcudump[n]`, which held 0xFF when the read was issued. -/
theorem dumpSweep_slot (env : Env) (w : World) (hdump : w.mcudump.length = 8192) (n : Nat)
    (hn : n < 8192) :
    (dumpSweep env w).mcudump[n]? =
      some (ReadByteFromMCU env n 0xFF (sweepPrefix env (dumpStart env w) n)).2.1 := by
  obtain ⟨d1, _, _⟩ := dumpStart_spec env w hdump
  have hl : (dumpStart env w).mcudump.length = 8192 := by
    rw [d1, List.length_replicate]
  have hd : (dumpStart env w).mcudump.getD n 0 = 0xFF := by
    rw [d1, List.getD_eq_getElem?_getD, List.getElem?_replicate, if_pos hn]
    rfl
  rw [dumpSweep_eq, (sweepPrefix_spec env (dumpStart env w) 8192).2.2.2.2 n hn (by omega), hd]

theorem and_255 (n : Nat) : n &&& 0xFF = n % 256 := by
  have := Nat.and_pow_two_sub_one_eq_mod n 8
  norm_num at this ⊢
  omega

theorem echoEnv_answers (v : World) (a : Nat) :
    ∃ k, k < 500 ∧ (bufferedAtPoll echoEnv v a k).head? = some (a &&& 0xFF) := by
  refine ⟨0, by decide, ?_⟩
  rw [and_255]
  simp [bufferedAtPoll, arrivedBy, echoEnv, historyLo, historyHi, List.reverse_append]

/-- C9: the dump terminates, having issued after the three diagnostic reads
exactly one read for each address 0x0000..0x1FFF in ascending order; slot `n`
of the snapshot then holds the byte returned by the read at `n` if that read
succeeded and 0xFF if it failed. So a transport that never answers leaves an
all-0xFF snapshot, and one that answers every read with `address & 0xFF`
leaves `mcudump[n] = n & 0xFF`. -/
theorem dumpSweep_snapshot (env : Env) (w : World) (hdump : w.mcudump.length = 8192)
    (hrx : w.rxbuffer.length = 1024) :
    dumpSweep env w =
      (List.range 8192).foldl (fun w a => sweepStep env a w) (dumpStart env w) ∧
    readsOf (dumpSweep env w).trace =
      readsOf w.trace ++ [0x1FDF, 0x1FF0, 0x1FF1] ++ List.range 8192 ∧
    (∀ n, n < 8192 → (dumpSweep env w).mcudump[n]? =
      some (if (ReadByteFromMCU env n 0xFF (sweepPrefix env (dumpStart env w) n)).1 = 0
        then (ReadByteFromMCU env n 0xFF (sweepPrefix env (dumpStart env w) n)).2.1
        else 0xFF)) ∧
    ((∀ h, env.arrive h = []) → (dumpSweep env w).mcudump = List.replicate 8192 0xFF) ∧
    ((∀ h b, env.writeOk h b = true) →
      (∀ (v : World) (a : Nat), ∃ k, k < 500 ∧
        (bufferedAtPoll env v a k).head? = some (a &&& 0xFF)) →
      ∀ n, n < 8192 → (dumpSweep env w).mcudump[n]? = some (n &&& 0xFF)) := by
  obtain ⟨_, d2, d3⟩ := dumpStart_spec env w hdump
  have hrxn : ∀ n, (sweepPrefix env (dumpStart env w) n).rxbuffer.length = 1024 := by
    intro n
    rw [(sweepPrefix_spec env (dumpStart env w) n).2.1, d2, hrx]
  refine ⟨dumpSweep_eq env w, ?_, ?_, ?_, ?_⟩
  · rw [dumpSweep_eq, (sweepPrefix_spec env (dumpStart env w) 8192).2.2.1, d3]
  · intro n hn
    rw [dumpSweep_slot env w hdump n hn]
    split_ifs with h
    · rfl
    · rw [(ReadByteFromMCU_frame env n 0xFF _).2.2.2 h]
  · intro hnone
    apply List.ext_getElem?
    intro n
    by_cases hn : n < 8192
    · rw [dumpSweep_slot env w hdump n hn, ReadByteFromMCU_silent env hnone n 0xFF _ (hrxn n),
        List.getElem?_replicate, if_pos hn]
    · have hlen : (dumpSweep env w).mcudump.length = 8192 := by
        rw [dumpSweep_eq, (sweepPrefix_spec env (dumpStart env w) 8192).1,
          (dumpStart_spec env w hdump).1, List.length_replicate]
      rw [List.getElem?_eq_none (by omega), List.getElem?_replicate, if_neg hn]
  · intro hok hans n hn
    rw [dumpSweep_slot env w hdump n hn,
      ReadByteFromMCU_answer env hok n 0xFF (n &&& 0xFF) _ (hrxn n) (hans _ n)]

/-! ## The loader: lines that are skipped, and safety -/

/-- A line of at least two characters that does not start with `S1` is skipped. -/
theorem loadLine_skip (targetarea : Nat) (line : List Nat) (s : LoadState)
    (hlen : 2 ≤ line.length) (hS : ¬ isS1 line) : loadLine targetarea line s = .next s := by
  have e0 := getElem?_getD_of_lt line 0 (by omega)
  have e1 := getElem?_getD_of_lt line 1 (by omega)
  unfold isS1 at hS
  rw [e0, e1] at hS
  unfold loadLine
  rw [e0]
  by_cases h0 : line.getD 0 0 = 0x53
  · simp only [h0, if_true]
    rw [e1]
    have h1 : ¬ line.getD 1 0 = 0x31 := fun h1 => hS ⟨by rw [h0], by rw [h1]⟩
    simp only [h1, if_false]
  · simp only [h0, if_false]

/-- An S1 line of at least eight characters for a target area other than the
RAM is parsed and then left alone. -/
theorem loadLine_other_area (targetarea : Nat) (line : List Nat) (s : LoadState)
    (hS : isS1 line) (hlen : 8 ≤ line.length) (ht : targetarea ≠ RAM_0050) :
    loadLine targetarea line s = .next s := by
  obtain ⟨hS0, hS1⟩ := hS
  unfold loadLine
  rw [hS0]
  simp only [if_true]
  rw [hS1]
  simp only [if_true]
  rw [getElem?_getD_of_lt line 2 (by omega), getElem?_getD_of_lt line 3 (by omega),
    getElem?_getD_of_lt line 4 (by omega), getElem?_getD_of_lt line 5 (by omega),
    getElem?_getD_of_lt line 6 (by omega), getElem?_getD_of_lt line 7 (by omega)]
  simp only [ht, if_false]

/-- Witness for `dumpSweep_snapshot`: on the echoing transport, started from
the initial globals, slot 0x1234 of the snapshot holds 0x34. -/
theorem dumpSweep_snapshot_witness :
    (dumpSweep echoEnv World0).mcudump[0x1234]? = some (0x1234 &&& 0xFF) :=
  (dumpSweep_snapshot echoEnv World0 (List.length_replicate _ _)
    (List.length_replicate _ _)).2.2.2.2 (fun _ _ => rfl) echoEnv_answers 0x1234 (by decide)

theorem scanLoop_safe (targetarea : Nat) :
    ∀ (lines : List (List Nat)) (s : LoadState), s.RAM.length = 176 → s.objectlength < 65536 →
      (∀ line ∈ lines, 2 ≤ line.length ∧ (isS1 line →
        3 ≤ lengthField line ∧ 8 + 2 * (lengthField line - 3) ≤ line.length ∧
        0x50 ≤ addressField line ∧ addressField line + (lengthField line - 3) ≤ 0x100)) →
      ∃ s1, scanLoop targetarea lines s = some (0, s1) := by
  intro lines
  induction lines with
  | nil =>
    intro s _ _ _
    exact ⟨s, rfl⟩
  | cons line rest ih =>
    intro s hR ho hall
    obtain ⟨h2, hwf⟩ := hall line (List.mem_cons_self _ _)
    have hrest : ∀ l ∈ rest, 2 ≤ l.length ∧ (isS1 l →
        3 ≤ lengthField l ∧ 8 + 2 * (lengthField l - 3) ≤ l.length ∧
        0x50 ≤ addressField l ∧ addressField l + (lengthField l - 3) ≤ 0x100) :=
      fun l hl => hall l (List.mem_cons_of_mem _ hl)
    rw [scanLoop]
    by_cases hS : isS1 line
    · obtain ⟨a1, a2, a3, a4⟩ := hwf hS
      by_cases ht : targetarea = RAM_0050
      · subst ht
        obtain ⟨s1, r1, r2, _, r4, _⟩ := loadLine_S1 line s hR ho hS a1 a3 a4 a2
        rw [r1]
        exact ih s1 r2 (by rw [r4]; omega) hrest
      · rw [loadLine_other_area targetarea line s hS (by omega) ht]
        exact ih s hR ho hrest
    · rw [loadLine_skip targetarea line s h2 hS]
      exact ih s hR ho hrest

/-- Lines of at least two characters that do not start with `S1` can be
removed from the file without changing what the scan does. -/
theorem scanLoop_filter (targetarea : Nat) :
    ∀ (lines : List (List Nat)) (s : LoadState),
      (∀ line ∈ lines, ¬ isS1 line → 2 ≤ line.length) →
      scanLoop targetarea lines s =
        scanLoop targetarea (lines.filter (fun l => decide (isS1 l))) s := by
  intro lines
  induction lines with
  | nil =>
    intro s _
    rfl
  | cons line rest ih =>
    intro s hall
    have hrest : ∀ l ∈ rest, ¬ isS1 l → 2 ≤ l.length :=
      fun l hl => hall l (List.mem_cons_of_mem _ hl)
    by_cases hS : isS1 line
    · rw [List.filter_cons_of_pos (by simpa using hS), scanLoop, scanLoop]
      cases loadLine targetarea line s with
      | next s1 => exact ih s1 hrest
      | ret code s1 => rfl
      | panic => rfl
    · rw [List.filter_cons_of_neg (by simpa using hS), scanLoop,
        loadLine_skip targetarea line s (hall line (List.mem_cons_self _ _) hS) hS]
      exact ih s hrest

set_option maxRecDepth 100000 in
/-- C11 (code at the failing inputs): an empty line, or the one-character line
`S`, after a good record makes the load panic on `line[0]` or `line[1]`, while
the same file without that line loads with return value 0. -/
theorem LoadSrec_short_line_panics :
    LoadSrec (some [oneByteRecord, []]) RAM_0050 ⟨RAM0, 0, 0⟩ = none ∧
    LoadSrec (some [oneByteRecord, ascii "S"]) RAM_0050 ⟨RAM0, 0, 0⟩ = none ∧
    (LoadSrec (some [oneByteRecord]) RAM_0050 ⟨RAM0, 0, 0⟩).map
      (fun r => (r.1, r.2.objectlength)) = some (0, 1) := by
  decide

/-- C14: the range test of `LoadSrec` is false for every address, so no line
makes the scan return: a load of a readable file either panics or returns 0,
and -1 is returned only when the file cannot be opened. -/
theorem LoadSrec_range_check_dead :
    (∀ address : Nat, outOfRange address = false) ∧
    (∀ (targetarea : Nat) (line : List Nat) (s : LoadState),
      loadLine targetarea line s = .panic ∨ ∃ s1, loadLine targetarea line s = .next s1) ∧
    (∀ (lines : List (List Nat)) (targetarea : Nat) (s : LoadState),
      LoadSrec (some lines) targetarea s = none ∨
        (LoadSrec (some lines) targetarea s).map Prod.fst = some 0) ∧
    (∀ (targetarea : Nat) (s : LoadState),
      (LoadSrec none targetarea s).map Prod.fst = some (-1)) := by
  refine ⟨outOfRange_false, ?_, ?_, fun _ _ => rfl⟩
  · intro t line s
    cases h : loadLine t line s with
    | next s1 => exact Or.inr ⟨s1, rfl⟩
    | ret code s1 => exact absurd h (loadLine_ret t line s s1 code)
    | panic => exact Or.inl rfl
  · intro lines t s
    cases h : LoadSrec (some lines) t s with
    | none => exact Or.inl rfl
    | some r =>
      right
      obtain ⟨code, s1⟩ := r
      rw [LoadSrec_some] at h
      obtain ⟨hc, _⟩ := scanLoop_inv t lines _ s1 code h
      rw [hc]
      rfl

/-- C15: when every line has at least two characters and every S1 line has a
length field `L ≥ 3`, at least `8 + 2*(L-3)` characters and an address `A` with
`0x50 ≤ A` and `A + (L-3) ≤ 0x100`, `LoadSrec` makes no out-of-range access to
a line or to the 176-byte image and returns 0; the subtractions `L-3` (byte)
and `A-0x50` (16-bit) do not wrap. -/
theorem LoadSrec_index_safe (lines : List (List Nat)) (targetarea : Nat) (s : LoadState)
    (hRAM : s.RAM.length = 176)
    (hlines : ∀ line ∈ lines, 2 ≤ line.length ∧ (isS1 line →
      3 ≤ lengthField line ∧ 8 + 2 * (lengthField line - 3) ≤ line.length ∧
      0x50 ≤ addressField line ∧ addressField line + (lengthField line - 3) ≤ 0x100)) :
    (∃ s1, LoadSrec (some lines) targetarea s = some (0, s1)) ∧
    (∀ line ∈ lines, isS1 line →
      subByte (lengthField line) 3 = lengthField line - 3 ∧
      subU16 (addressField line) 0x50 = addressField line - 0x50) := by
  refine ⟨?_, ?_⟩
  · rw [LoadSrec_some]
    exact scanLoop_safe targetarea lines _ hRAM (by show (0 : Nat) < 65536; decide) hlines
  · intro line hl hS
    obtain ⟨_, hwf⟩ := hlines line hl
    obtain ⟨a1, _, a3, a4⟩ := hwf hS
    have hL : lengthField line < 256 := asciihex2bin_lt _ _
    unfold subByte subU16
    omega

set_option maxRecDepth 100000 in
/-- Witness for `LoadSrec_index_safe`: a header line, one data record and a
termination line. -/
theorem LoadSrec_index_safe_witness :
    (LoadSrec (some [ascii "S0030000FC", oneByteRecord, ascii "S9030000FC"]) RAM_0050
      ⟨RAM0, 0, 0⟩).map Prod.fst = some 0 := by
  obtain ⟨⟨s1, h⟩, _⟩ := LoadSrec_index_safe
    [ascii "S0030000FC", oneByteRecord, ascii "S9030000FC"] RAM_0050 ⟨RAM0, 0, 0⟩ RAM0_length
    (by decide)
  rw [h]
  rfl

/-! ## Write attempts of the upload and of the access commands -/

theorem attemptsOf_append (t1 t2 : List Event) :
    attemptsOf (t1 ++ t2) = attemptsOf t1 ++ attemptsOf t2 := by
  unfold attemptsOf
  rw [writesOf_append, List.map_append]

theorem sleep_attemptsOf (env : Env) (m : Nat) (w : World) :
    attemptsOf (sleep env m w).trace = attemptsOf w.trace := by
  unfold attemptsOf
  rw [sleep_writesOf]

theorem portWrite_attemptsOf (env : Env) (b : Nat) (w : World) :
    attemptsOf (portWrite env b w).2.trace = attemptsOf w.trace ++ [b] := by
  unfold attemptsOf
  rw [portWrite_writesOf, List.map_append]
  rfl

theorem uploadLoop_attempts (env : Env) :
    ∀ (k : Nat) (w : World), w.selector + k ≤ w.RAM.length →
      ∃ w1, uploadLoop env k w = some w1 ∧
        attemptsOf w1.trace = attemptsOf w.trace ++ (w.RAM.drop w.selector).take k := by
  intro k
  induction k with
  | zero =>
    intro w _
    exact ⟨w, rfl, by simp⟩
  | succ k ih =>
    intro w hfit
    have hsel : w.selector < w.RAM.length := by omega
    have hR : (sleep env 5000 w).RAM = w.RAM := (sleep_frame env 5000 w).2.1
    have hs : (sleep env 5000 w).selector = w.selector := (sleep_frame env 5000 w).2.2.1
    obtain ⟨w1, r1, r2⟩ := ih
      { (portWrite env w.RAM[w.selector] (sleep env 5000 w)).2 with
        selector := (portWrite env w.RAM[w.selector] (sleep env 5000 w)).2.selector + 1 }
      (by
        show (sleep env 5000 w).selector + 1 + k ≤ (sleep env 5000 w).RAM.length
        rw [hR, hs]
        omega)
    refine ⟨w1, ?_, ?_⟩
    · rw [uploadLoop, List.getElem?_eq_getElem hsel]
      exact r1
    · rw [r2]
      have e1 : attemptsOf ({ (portWrite env w.RAM[w.selector] (sleep env 5000 w)).2 with
          selector := (portWrite env w.RAM[w.selector] (sleep env 5000 w)).2.selector + 1 }).trace
          = attemptsOf w.trace ++ [w.RAM[w.selector]] := by
        show attemptsOf (portWrite env w.RAM[w.selector] (sleep env 5000 w)).2.trace = _
        rw [portWrite_attemptsOf, sleep_attemptsOf]
      have e2 : ({ (portWrite env w.RAM[w.selector] (sleep env 5000 w)).2 with
          selector := (portWrite env w.RAM[w.selector] (sleep env 5000 w)).2.selector + 1 }).RAM
          = w.RAM := hR
      have e3 : ({ (portWrite env w.RAM[w.selector] (sleep env 5000 w)).2 with
          selector := (portWrite env w.RAM[w.selector] (sleep env 5000 w)).2.selector + 1 }).selector
          = w.selector + 1 := by
        show (sleep env 5000 w).selector + 1 = _
        rw [hs]
      rw [e1, e2, e3, List.drop_eq_getElem_cons hsel, List.take_succ_cons, List.append_assoc]
      rfl

/-- C12 (amended): for an image whose loaded region lies inside the 176-byte
RAM image, once the write of the length byte has succeeded the whole stream is
attempted whatever writes fail afterwards, `N+1` attempts in all; when the
write of the length byte itself fails, the image bytes are not attempted. -/
theorem upload_best_effort (env : Env) (anykey : Nat) (w : World) (hkey : 0 < anykey)
    (hRAM : w.RAM.length = 176) (hS : 0x50 ≤ w.RAM_PROGRAM_START)
    (hfit : (w.RAM_PROGRAM_START - 0x50) + w.RAM_SIZE_LOADED ≤ 176) :
    ∃ w1, upload env anykey w = some w1 ∧
      attemptsOf w1.trace = attemptsOf w.trace ++
        (if env.writeOk w.trace (w.RAM_SIZE_LOADED + 1) = true then
          (w.RAM_SIZE_LOADED + 1) ::
            (w.RAM.drop (w.RAM_PROGRAM_START - 0x50)).take w.RAM_SIZE_LOADED
        else [w.RAM_SIZE_LOADED + 1]) ∧
      ((w.RAM_SIZE_LOADED + 1) ::
        (w.RAM.drop (w.RAM_PROGRAM_START - 0x50)).take w.RAM_SIZE_LOADED).length
        = w.RAM_SIZE_LOADED + 1 := by
  have hsub : subU16 w.RAM_PROGRAM_START 0x50 = w.RAM_PROGRAM_START - 0x50 := by
    unfold subU16
    omega
  have hN1 : (w.RAM_SIZE_LOADED % 256 + 1) % 256 = w.RAM_SIZE_LOADED + 1 := by omega
  have hcount : subByte (w.RAM_SIZE_LOADED + 1) 1 = w.RAM_SIZE_LOADED := by
    unfold subByte
    omega
  have hlen : ((w.RAM_SIZE_LOADED + 1) ::
      (w.RAM.drop (w.RAM_PROGRAM_START - 0x50)).take w.RAM_SIZE_LOADED).length
      = w.RAM_SIZE_LOADED + 1 := by
    rw [List.length_cons, List.length_take, List.length_drop, hRAM]
    omega
  have ha : attemptsOf (portWrite env (w.RAM_SIZE_LOADED + 1)
      { w with length := w.RAM_SIZE_LOADED + 1,
               selector := w.RAM_PROGRAM_START - 0x50 }).2.trace
      = attemptsOf w.trace ++ [w.RAM_SIZE_LOADED + 1] := portWrite_attemptsOf _ _ _
  unfold upload
  rw [if_pos hkey]
  simp only []
  rw [portWrite_ok, hN1, hsub]
  cases hw : env.writeOk w.trace (w.RAM_SIZE_LOADED + 1) with
  | false =>
    refine ⟨(portWrite env (w.RAM_SIZE_LOADED + 1)
      { w with length := w.RAM_SIZE_LOADED + 1,
               selector := w.RAM_PROGRAM_START - 0x50 }).2, ?_, ?_, hlen⟩
    · rw [if_neg (by decide)]
    · rw [ha, if_neg (by decide)]
  | true =>
    obtain ⟨w1, r1, r2⟩ := uploadLoop_attempts env w.RAM_SIZE_LOADED
      (portWrite env (w.RAM_SIZE_LOADED + 1)
        { w with length := w.RAM_SIZE_LOADED + 1,
                 selector := w.RAM_PROGRAM_START - 0x50 }).2
      (by
        show w.RAM_PROGRAM_START - 0x50 + w.RAM_SIZE_LOADED ≤ w.RAM.length
        rw [hRAM]
        exact hfit)
    refine ⟨w1, ?_, ?_, hlen⟩
    · rw [if_pos rfl]
      show uploadLoop env (subByte (w.RAM_SIZE_LOADED + 1) 1) _ = _
      rw [hcount]
      exact r1
    · rw [r2, ha, if_pos rfl, List.append_assoc]
      rfl

set_option maxRecDepth 100000 in
/-- Witness for `upload_best_effort`: three loaded bytes from start 0x0052 on a
link that refuses the byte 3; the following byte is attempted all the same. -/
theorem upload_best_effort_witness :
    (upload flakyEnv 1
      { World0 with RAM_SIZE_LOADED := 3, RAM_PROGRAM_START := 0x52, RAM := List.range 176 }).map
      (fun w => attemptsOf w.trace) = some [4, 2, 3, 4] := by
  obtain ⟨w1, h, h2, _⟩ := upload_best_effort flakyEnv 1
    { World0 with RAM_SIZE_LOADED := 3, RAM_PROGRAM_START := 0x52, RAM := List.range 176 }
    (by decide) (List.length_range 176) (by decide) (by decide)
  rw [h, Option.map_some', h2]
  decide

set_option maxRecDepth 100000 in
/-- C12 (as stated) fails: when every write fails, the upload of a 3-byte image
makes one write attempt, the length byte, not four; a failure on an image byte
alone does not stop the stream. -/
theorem upload_aborts_on_length_byte :
    (upload deafEnv 1
      { World0 with RAM_SIZE_LOADED := 3, RAM_PROGRAM_START := 0x52, RAM := List.range 176 }).map
      (fun w => writesOf w.trace) = some [(4, false)] ∧
    (upload flakyEnv 1
      { World0 with RAM_SIZE_LOADED := 3, RAM_PROGRAM_START := 0x52, RAM := List.range 176 }).map
      (fun w => writesOf w.trace) = some [(4, true), (2, true), (3, false), (4, true)] := by
  decide

theorem setAddr_fields (hi lo : Nat) (w : World) :
    ({ w with addr_hi := hi, addr_lo := lo }).addr_hi = hi ∧
      ({ w with addr_hi := hi, addr_lo := lo }).addr_lo = lo ∧
      ({ w with addr_hi := hi, addr_lo := lo }).trace = w.trace :=
  ⟨rfl, rfl, rfl⟩

theorem portWrite_addr_lo (env : Env) (b : Nat) (w : World) :
    (portWrite env b w).2.addr_lo = w.addr_lo := rfl

theorem clearRx_attemptsOf (w : World) : attemptsOf (clearRx w).trace = attemptsOf w.trace := by
  rw [clearRx_trace, attemptsOf_append]
  simp [attemptsOf, writesOf]

theorem latchAddress_attemptsOf (a : Nat) (w : World) :
    attemptsOf (latchAddress a w).trace = attemptsOf w.trace := by
  rw [latchAddress_trace, attemptsOf_append]
  simp [attemptsOf, writesOf]

theorem readCommand_attempts (env : Env) (hi lo : Nat) (w : World) :
    attemptsOf (readCommand env hi lo w).trace = attemptsOf w.trace ++ [hi, lo] := by
  unfold readCommand
  simp only []
  rw [sleep_attemptsOf, portWrite_attemptsOf, sleep_attemptsOf, portWrite_attemptsOf,
    clearRx_attemptsOf, sleep_addr_lo, portWrite_addr_lo, clearRx_addr_hi, clearRx_addr_lo,
    (setAddr_fields hi lo w).1, (setAddr_fields hi lo w).2.1, (setAddr_fields hi lo w).2.2,
    List.append_assoc]
  rfl

theorem writeCommand_attempts (env : Env) (hi lo v : Nat) (w : World) :
    attemptsOf (writeCommand env hi lo v w).trace = attemptsOf w.trace ++ [hi, lo, v] := by
  unfold writeCommand
  simp only []
  rw [portWrite_attemptsOf, sleep_attemptsOf, portWrite_attemptsOf, sleep_attemptsOf,
    portWrite_attemptsOf, clearRx_attemptsOf, sleep_addr_lo, portWrite_addr_lo, clearRx_addr_hi,
    clearRx_addr_lo, (setAddr_fields hi lo w).1, (setAddr_fields hi lo w).2.1,
    (setAddr_fields hi lo w).2.2, List.append_assoc, List.append_assoc]
  rfl

theorem highWrite_attempts (env : Env) (a : Nat) (w : World) :
    attemptsOf (portWrite env (clearRx (latchAddress a w)).addr_hi
      (clearRx (latchAddress a w))).2.trace = attemptsOf w.trace ++ [a / 256 % 256] := by
  rw [portWrite_attemptsOf, clearRx_attemptsOf, latchAddress_attemptsOf, clearRx_addr_hi,
    latchAddress_addr_hi]

theorem lowWrite_attempts (env : Env) (a : Nat) (w : World) :
    attemptsOf (portWrite env (a % 256) (sleep env 1000
      (portWrite env (clearRx (latchAddress a w)).addr_hi (clearRx (latchAddress a w))).2)).2.trace
      = attemptsOf w.trace ++ [a / 256 % 256, a % 256] := by
  rw [portWrite_attemptsOf, sleep_attemptsOf, highWrite_attempts, List.append_assoc]
  rfl

theorem ReadByteFromMCU_attempts (env : Env) (a d : Nat) (w : World) :
    attemptsOf (ReadByteFromMCU env a d w).2.2.trace = attemptsOf w.trace ++
      (if env.writeOk (w.trace ++ [Event.read a, Event.clear]) (a / 256 % 256) = true
        then [a / 256 % 256, a % 256] else [a / 256 % 256]) ∧
    (env.writeOk (w.trace ++ [Event.read a, Event.clear]) (a / 256 % 256) = false →
      (ReadByteFromMCU env a d w).1 = -1) := by
  have e : (sleep env 1000 (portWrite env (clearRx (latchAddress a w)).addr_hi
      (clearRx (latchAddress a w))).2).addr_lo = a % 256 := by
    rw [sleep_addr_lo]
    exact latchAddress_addr_lo a w
  cases hw1 : env.writeOk (w.trace ++ [Event.read a, Event.clear]) (a / 256 % 256) with
  | false =>
    unfold ReadByteFromMCU
    simp only []
    rw [highWrite_ok, hw1, if_pos rfl, if_neg (by decide)]
    exact ⟨highWrite_attempts env a w, fun _ => rfl⟩
  | true =>
    refine ⟨?_, fun h => by cases h⟩
    rw [if_pos rfl]
    unfold ReadByteFromMCU
    simp only []
    rw [highWrite_ok, hw1, if_neg (by decide), e]
    have hp : attemptsOf (pollLoop env 500 (portWrite env (a % 256) (sleep env 1000
        (portWrite env (clearRx (latchAddress a w)).addr_hi
          (clearRx (latchAddress a w))).2)).2).2.trace
        = attemptsOf w.trace ++ [a / 256 % 256, a % 256] := by
      unfold attemptsOf
      rw [(pollLoop_frame env 500 _).2.2.2]
      exact lowWrite_attempts env a w
    split_ifs
    · exact lowWrite_attempts env a w
    · exact hp
    · exact hp
    · exact hp

/-- A read in which one of the two address writes fails returns -1 at that
write and leaves the result behind its pointer alone. -/
theorem ReadByteFromMCU_write_failure (env : Env) (a d : Nat) (w : World) :
    (env.writeOk (w.trace ++ [Event.read a, Event.clear]) (a / 256 % 256) = true ∧
      env.writeOk (historyHi w a ++ [Event.sleep 1000]) (a % 256) = true) ∨
    ((ReadByteFromMCU env a d w).1 = -1 ∧ (ReadByteFromMCU env a d w).2.1 = d) := by
  have hdata : (ReadByteFromMCU env a d w).1 = -1 → (ReadByteFromMCU env a d w).2.1 = d := by
    intro h
    apply (ReadByteFromMCU_frame env a d w).2.2.2
    rw [h]
    exact (by decide : (-1 : Int) ≠ 0)
  cases hw1 : env.writeOk (w.trace ++ [Event.read a, Event.clear]) (a / 256 % 256) with
  | false =>
    right
    have h : (ReadByteFromMCU env a d w).1 = -1 := (ReadByteFromMCU_attempts env a d w).2 hw1
    exact ⟨h, hdata h⟩
  | true =>
    cases hw2 : env.writeOk (historyHi w a ++ [Event.sleep 1000]) (a % 256) with
    | true => exact Or.inl ⟨rfl, rfl⟩
    | false =>
      right
      have e : (sleep env 1000 (portWrite env (clearRx (latchAddress a w)).addr_hi
          (clearRx (latchAddress a w))).2).addr_lo = a % 256 := by
        rw [sleep_addr_lo]
        exact latchAddress_addr_lo a w
      have h : (ReadByteFromMCU env a d w).1 = -1 := by
        unfold ReadByteFromMCU
        simp only []
        rw [highWrite_ok, hw1, e, afterAddress_ok env a w hw1, hw2, if_neg (by decide),
          if_pos rfl]
      exact ⟨h, hdata h⟩

/-- C13 (amended): the WRITE command attempts the high byte, the low byte and
the value byte of its request whatever writes fail, and the READ command
attempts both address bytes whatever fails; `ReadByteFromMCU` attempts the low
address byte only after the high byte has been written successfully, and
unless both of its address writes succeed it returns -1 and leaves the result
alone: it returns at the first failed write. -/
theorem access_write_failures :
    (∀ (env : Env) (hi lo v : Nat) (w : World),
      attemptsOf (writeCommand env hi lo v w).trace = attemptsOf w.trace ++ [hi, lo, v]) ∧
    (∀ (env : Env) (hi lo : Nat) (w : World),
      attemptsOf (readCommand env hi lo w).trace = attemptsOf w.trace ++ [hi, lo]) ∧
    (∀ (env : Env) (a d : Nat) (w : World),
      attemptsOf (ReadByteFromMCU env a d w).2.2.trace = attemptsOf w.trace ++
        (if env.writeOk (w.trace ++ [Event.read a, Event.clear]) (a / 256 % 256) = true
          then [a / 256 % 256, a % 256] else [a / 256 % 256])) ∧
    (∀ (env : Env) (a d : Nat) (w : World),
      (env.writeOk (w.trace ++ [Event.read a, Event.clear]) (a / 256 % 256) = true ∧
        env.writeOk (historyHi w a ++ [Event.sleep 1000]) (a % 256) = true) ∨
      ((ReadByteFromMCU env a d w).1 = -1 ∧ (ReadByteFromMCU env a d w).2.1 = d)) :=
  ⟨writeCommand_attempts, readCommand_attempts,
    fun env a d w => (ReadByteFromMCU_attempts env a d w).1, ReadByteFromMCU_write_failure⟩

/-- C13 (as stated) fails: on a link where every write fails, `ReadByteFromMCU`
returns -1 after the one attempt for the high address byte, while the WRITE
command attempts all three bytes. -/
theorem ReadByteFromMCU_stops_after_failed_high_byte :
    (ReadByteFromMCU deafEnv 0x1234 0 World0).1 = -1 ∧
    writesOf (ReadByteFromMCU deafEnv 0x1234 0 World0).2.2.trace = [(0x12, false)] ∧
    writesOf (writeCommand deafEnv 0x12 0x34 0x56 World0).trace
      = [(0x12, false), (0x34, false), (0x56, false)] := by
  decide

end PROG05
